import Mathlib

/-!
# Verification of `welltestpy.tools.triangulate`

A shallow embedding of the point-set reconstruction core of the repository
(`src/welltestpy/tools/triangulate.py`) over the real numbers, together with
theorems settling the frozen claims about it.

Modelling conventions:
* Floating-point numbers of the source are modelled by `ℝ` (exact real
  arithmetic); `np.sqrt` and `np.linalg.norm` by `Real.sqrt`.
* A distance matrix is a function `d : ℕ → ℕ → ℝ` together with its size
  `N : ℕ` (the source reads the size from `np.shape(distances)[0]`).
* A solution slot is `Option Point`: `none` is the source's scalar marker `0`
  for an unplaced point, `some p` a placed 2-D coordinate.
* `np.linalg.inv` on a 2×2 matrix is the adjugate-over-determinant formula.
* Python's `raise ValueError` in `triangulate` is modelled by `Except.error`.
* Loops with `break`/early `return` are translated into structural recursion
  over the corresponding index list; a loop that accumulates with `&=` is a
  conjunction.
-/

open scoped Classical

noncomputable section

namespace Welltestpy

/-- A planar point, as the 2-entry `np.array` of the source. -/
abbrev Point : Type := ℝ × ℝ

/-- A solution approach: one optional coordinate per matrix index
(the source uses the scalar `0` for "not yet placed"). -/
abbrev Sol : Type := List (Option Point)

/-- A 2×2 matrix, stored as its two rows. -/
abbrev Mat2 : Type := (ℝ × ℝ) × (ℝ × ℝ)

/-- Matrix-vector product `np.dot(A, x)` for a 2×2 matrix. -/
def mulVec (A : Mat2) (v : Point) : Point :=
  (A.1.1 * v.1 + A.1.2 * v.2, A.2.1 * v.1 + A.2.2 * v.2)

/-- Pointwise sum of two 2-vectors. -/
def padd (v w : Point) : Point := (v.1 + w.1, v.2 + w.2)

/-- Pointwise negation of a 2-vector. -/
def pneg (v : Point) : Point := (-v.1, -v.2)

/-- `dist(v, w)`: the Euclidean distance `np.linalg.norm(np.array(v) - np.array(w))`. -/
def dist (v w : Point) : ℝ :=
  Real.sqrt ((v.1 - w.1) ^ 2 + (v.2 - w.2) ^ 2)

/-- `xvalue(a, b, c)` of the source. -/
def xvalue (a b c : ℝ) : ℝ := (a ^ 2 + c ^ 2 - b ^ 2) / (2 * c)

/-- `yvalue(b, a, c)` of the source (the first formal parameter is named `b`
there); returns the two possible y-values, with the flatness guard and the
clamping of the discriminant to `≥ 0`. -/
def yvalue (b a c : ℝ) : ℝ × ℝ :=
  if a + b ≤ c ∨ a + c ≤ b ∨ b + c ≤ a then (0, -0)
  else
    (Real.sqrt (max (2 * ((a * b) ^ 2 + (a * c) ^ 2 + (b * c) ^ 2)
        - (a ^ 4 + b ^ 4 + c ^ 4)) 0) / (2 * c),
     -(Real.sqrt (max (2 * ((a * b) ^ 2 + (a * c) ^ 2 + (b * c) ^ 2)
        - (a ^ 4 + b ^ 4 + c ^ 4)) 0) / (2 * c)))

/-- `tranmat(a, b)`: coefficients `(A, s)` of the affine map with `f(a) = (0,0)`
and `f(b) = (|b-a|, 0)`. -/
def tranmat (a b : Point) : Mat2 × Point :=
  ((((b.1 - a.1) / dist a b, (b.2 - a.2) / dist a b),
    (-(b.2 - a.2) / dist a b, (b.1 - a.1) / dist a b)),
   pneg (mulVec (((b.1 - a.1) / dist a b, (b.2 - a.2) / dist a b),
    (-(b.2 - a.2) / dist a b, (b.1 - a.1) / dist a b)) a))

/-- `invtranmat(A, s)`: coefficients of the inverse affine map; `np.linalg.inv`
on a 2×2 matrix is the adjugate/determinant formula. -/
def invtranmat (As : Mat2 × Point) : Mat2 × Point :=
  ((((As.1.2.2 / (As.1.1.1 * As.1.2.2 - As.1.1.2 * As.1.2.1),
      -As.1.1.2 / (As.1.1.1 * As.1.2.2 - As.1.1.2 * As.1.2.1)),
     (-As.1.2.1 / (As.1.1.1 * As.1.2.2 - As.1.1.2 * As.1.2.1),
      As.1.1.1 / (As.1.1.1 * As.1.2.2 - As.1.1.2 * As.1.2.1))),
    pneg (mulVec (((As.1.2.2 / (As.1.1.1 * As.1.2.2 - As.1.1.2 * As.1.2.1),
      -As.1.1.2 / (As.1.1.1 * As.1.2.2 - As.1.1.2 * As.1.2.1)),
     (-As.1.2.1 / (As.1.1.1 * As.1.2.2 - As.1.1.2 * As.1.2.1),
      As.1.1.1 / (As.1.1.1 * As.1.2.2 - As.1.1.2 * As.1.2.1)))) As.2)))

/-- `affinef(A, s)`: the affine-linear function `x ↦ A x + s`. -/
def affinef (As : Mat2 × Point) (x : Point) : Point :=
  padd (mulVec As.1 x) As.2

/-- Read slot `k` of a solution approach (`sol[k]` in the source). -/
def nthP (s : Sol) (k : ℕ) : Option Point := s.getD k none

/-- Read slot `k` as a coordinate; only used where the source has already
established that the slot is placed. -/
def getP (s : Sol) (k : ℕ) : Point := (nthP s k).getD (0, 0)

/-- The Euclidean distance between the coordinates stored at anchor slots
`n` and `m`, `dist(sol[n], sol[m])` in the source. -/
def anchorDist (sol : Sol) (n m : ℕ) : ℝ := dist (getP sol n) (getP sol m)

/-- The validity check of `pntcoord` for one candidate position: the loop
`for k in range(pntscount)` requiring
`abs(dist(sol[k], pos) - distances[i, k]) < prec` for every placed `k`
with known distance to `i`. -/
def validAt (sol : Sol) (i : ℕ) (d : ℕ → ℕ → ℝ) (prec : ℝ) (pos : Point) : Prop :=
  ∀ k, k < sol.length → ∀ q, nthP sol k = some q → d i k > -(1 / 2) →
    |dist q pos - d i k| < prec

/-- The two candidate y-values computed by `pntcoord`:
`yvalue(distances[i, n], distances[i, m], dist(sol[n], sol[m]))`. -/
def candYs (sol : Sol) (i n m : ℕ) (d : ℕ → ℕ → ℝ) : ℝ × ℝ :=
  yvalue (d i n) (d i m) (anchorDist sol n m)

/-- A candidate position of `pntcoord`: the canonical candidate
`(xvalue .., y)` mapped back through `g = affinef(*invtranmat(*tranmat(..)))`. -/
def candPos (sol : Sol) (i n m : ℕ) (d : ℕ → ℕ → ℝ) (y : ℝ) : Point :=
  affinef (invtranmat (tranmat (getP sol n) (getP sol m)))
    (xvalue (d i n) (d i m) (anchorDist sol n m), y)

/-- The body of `pntcoord` after the two early returns (unknown distances,
anchor-edge triangle test): candidate generation and validity filtering. -/
def pntcoordMain (sol : Sol) (i n m : ℕ) (d : ℕ → ℕ → ℝ) (prec : ℝ) :
    List Point × ℕ :=
  if validAt sol i d prec (candPos sol i n m d (candYs sol i n m d).1) ∨
     validAt sol i d prec (candPos sol i n m d (candYs sol i n m d).2) then
    ((if validAt sol i d prec (candPos sol i n m d (candYs sol i n m d).1) then
        [candPos sol i n m d (candYs sol i n m d).1] else []) ++
     (if validAt sol i d prec (candPos sol i n m d (candYs sol i n m d).2) ∧
         ¬ |(candYs sol i n m d).1 - (candYs sol i n m d).2| < prec / 4 then
        [candPos sol i n m d (candYs sol i n m d).2] else []), 0)
  else ([], 2)

/-- `pntcoord(sol, i, n, m, distances, prec)` of the source: generate the
candidate coordinates for point `i` against anchors `n`, `m` and check them;
state `1` = unknown distances, state `2` = contradiction, state `0` = placed. -/
def pntcoord (sol : Sol) (i n m : ℕ) (d : ℕ → ℕ → ℝ) (prec : ℝ) :
    List Point × ℕ :=
  if d i n < -(1 / 2) ∨ d i m < -(1 / 2) then ([], 1)
  else if d i n + d i m < anchorDist sol n m then ([], 2)
  else pntcoordMain sol i n m d prec

/-- Ordered pairs `(l[n], l[m])` with `n < m`, in the order of the source's
nested loops `for n in range(cnt-1): for m in range(n+1, cnt)`. -/
def lexPairs : List ℕ → List (ℕ × ℕ)
  | [] => []
  | x :: xs => xs.map (fun y => (x, y)) ++ lexPairs xs

/-- Indices of the placed slots (`solpnts` in `addpoint`), in index order. -/
def placedIdx (sol : Sol) : List ℕ :=
  (List.range sol.length).filter (fun k => (nthP sol k).isSome)

/-- Indices of the unplaced slots (`pleft` in `addpoints`), in index order. -/
def unplacedIdx (sol : Sol) : List ℕ :=
  (List.range sol.length).filter (fun k => (nthP sol k).isNone)

/-- The anchor-pair loop of `addpoint`: try `pntcoord` on each pair of placed
points in order; on state `0` return the branched copies, on state `2` return
the contradiction, on state `1` continue; `([], 1)` if the pairs run out. -/
def addpointGo (sol : Sol) (i : ℕ) (d : ℕ → ℕ → ℝ) (prec : ℝ) :
    List (ℕ × ℕ) → List Sol × ℕ
  | [] => ([], 1)
  | nm :: rest =>
    if (pntcoord sol i nm.1 nm.2 d prec).2 = 0 then
      ((pntcoord sol i nm.1 nm.2 d prec).1.map (fun p => sol.set i (some p)), 0)
    else if (pntcoord sol i nm.1 nm.2 d prec).2 = 2 then ([], 2)
    else addpointGo sol i d prec rest

/-- `addpoint(sol, i, distances, prec)` of the source. -/
def addpoint (sol : Sol) (i : ℕ) (d : ℕ → ℕ → ℝ) (prec : ℝ) :
    List Sol × ℕ :=
  if (nthP sol i).isSome then ([sol], 0)
  else addpointGo sol i d prec (lexPairs (placedIdx sol))

/-- The point loop of `addpoints`: try `addpoint` for every unplaced index;
state `2` aborts with `([], 2)`, state `0` accumulates and sets `posfound`. -/
def addpointsGo (sol : Sol) (d : ℕ → ℕ → ℝ) (prec : ℝ) :
    List ℕ → Bool → List Sol → List Sol × ℕ
  | [], pf, acc => (acc, if pf then 0 else 1)
  | i :: rest, pf, acc =>
    if (addpoint sol i d prec).2 = 0 then
      addpointsGo sol d prec rest true (acc ++ (addpoint sol i d prec).1)
    else if (addpoint sol i d prec).2 = 2 then ([], 2)
    else addpointsGo sol d prec rest pf acc

/-- `addpoints(sol, distances, prec)` of the source. -/
def addpoints (sol : Sol) (d : ℕ → ℕ → ℝ) (prec : ℝ) : List Sol × ℕ :=
  addpointsGo sol d prec (unplacedIdx sol) false []

/-- The initial solution approach of `triangulatesgl`: `sp1 ↦ (0,0)` and
`sp2 ↦ (dis, 0)` in a length-`N` list of unplaced slots. -/
def initSol (N sp1 sp2 : ℕ) (dis : ℝ) : Sol :=
  ((List.replicate N (none : Option Point)).set sp1 (some (0, 0))).set sp2
    (some (dis, 0))

/-- One pass of the frontier loop of `triangulatesgl`: every member is
replaced by its state-`0` branches from `addpoints`; members whose `addpoints`
state is `1` or `2` contribute nothing. -/
def stepF (d : ℕ → ℕ → ℝ) (prec : ℝ) (res : List Sol) : List Sol :=
  res.flatMap (fun s =>
    if (addpoints s d prec).2 = 0 then (addpoints s d prec).1 else [])

/-- `triangulatesgl(distances, sp1, sp2, prec)` of the source; `N` is
`np.shape(distances)[0]`.  The source's early `return []` when an iteration
produces an empty frontier is absorbed here because a later pass over an
empty frontier is again empty. -/
def triangulatesgl (d : ℕ → ℕ → ℝ) (N sp1 sp2 : ℕ) (prec : ℝ) : List Sol :=
  if d sp1 sp2 < -(1 / 2) then []
  else (stepF d prec)^[N - 2] [initSol N sp1 sp2 (d sp1 sp2)]

/-- The starting-edge loop of `triangulate`: accumulate the results of
`triangulatesgl` over the candidate edges, with the double `break` when the
accumulated list is non-empty and `all_pos` is false. -/
def collectGo (d : ℕ → ℕ → ℝ) (N : ℕ) (prec : ℝ) (allPos : Bool) :
    List (ℕ × ℕ) → List Sol → List Sol
  | [], acc => acc
  | nm :: rest, acc =>
    if acc ++ triangulatesgl d N nm.1 nm.2 prec ≠ [] ∧ allPos = false then
      acc ++ triangulatesgl d N nm.1 nm.2 prec
    else collectGo d N prec allPos rest (acc ++ triangulatesgl d N nm.1 nm.2 prec)

/-- The raw (pre-canonicalization) result list accumulated by `triangulate`. -/
def rawResults (d : ℕ → ℕ → ℝ) (N : ℕ) (prec : ℝ) (allPos : Bool) : List Sol :=
  collectGo d N prec allPos (lexPairs (List.range N)) []

/-- `rotate(res)` of the source: map every solution through
`g = affinef(*tranmat(sol[0], sol[1]))`. -/
def rotate (res : List Sol) : List Sol :=
  res.map (fun e => e.map (Option.map (affinef (tranmat (getP e 0) (getP e 1)))))

/-- `distvalid(dis, err)` of the source: symmetry, zero diagonal, and the
triangle inequalities within `abs(err)` for every fully known triple. -/
def distvalid (d : ℕ → ℕ → ℝ) (N : ℕ) (err : ℝ) : Prop :=
  (∀ i, i < N → ∀ j, j < N → d i j = d j i) ∧
  (∀ i, i < N → d i i = 0) ∧
  (∀ i j k, i < j → j < k → k < N →
    d i j > -(1 / 2) → d i k > -(1 / 2) → d j k > -(1 / 2) →
    d i j + d j k ≥ d i k - |err| ∧ d i k + d k j ≥ d i j - |err| ∧
    d j i + d i k ≥ d j k - |err|)

/-- `solequal(sol1, sol2, prec)` of the source: walk the zipped slot lists;
a placed/unplaced mismatch is immediate failure, two placed slots must be
within `prec` of each other. -/
def solequal : Sol → Sol → ℝ → Prop
  | a :: l1, b :: l2, prec =>
    (match a, b with
     | some p, some q => dist p q < prec ∧ solequal l1 l2 prec
     | none, none => solequal l1 l2 prec
     | _, _ => False)
  | _, _, _ => True

/-- The deduplication loop of `triangulate`: keep a result iff it is not
`solequal` to any already kept one. -/
def dedupGo (prec : ℝ) : List Sol → List Sol → List Sol
  | acc, [] => acc
  | acc, r :: rest =>
    dedupGo prec (if ∀ j ∈ acc, ¬ solequal r j prec then acc ++ [r] else acc) rest

/-- The deduplication step of `triangulate` (`sol = [res[0]]` then the
`addable` loop). -/
def dedup (res : List Sol) (prec : ℝ) : List Sol :=
  match res with
  | [] => []
  | r :: rest => dedupGo prec [r] rest

/-- `triangulate(distances, prec, all_pos)` of the source; `N` is
`np.shape(distances)[0]` and the `ValueError` is the `Except.error` case. -/
def triangulate (d : ℕ → ℕ → ℝ) (N : ℕ) (prec : ℝ) (allPos : Bool) :
    Except String (List Sol) :=
  if ¬ distvalid d N (prec / 3) then Except.error "Given distances are not valid"
  else if rawResults d N prec allPos = [] then Except.ok []
  else Except.ok (dedup (rotate (rawResults d N prec allPos)) prec)

/-- Modelled from the spec (§4.4): the "stop at the first starting edge that
yields ≥ 1 result" policy, as a reference function to compare the
orchestrator loop against. -/
def firstNonempty (d : ℕ → ℕ → ℝ) (N : ℕ) (prec : ℝ) :
    List (ℕ × ℕ) → List Sol
  | [] => []
  | nm :: rest =>
    if triangulatesgl d N nm.1 nm.2 prec = [] then firstNonempty d N prec rest
    else triangulatesgl d N nm.1 nm.2 prec

/-- Strict lexicographic order on index pairs, the order in which the
orchestrator's nested loops enumerate starting edges. -/
def lexLT (p q : ℕ × ℕ) : Prop := p.1 < q.1 ∨ (p.1 = q.1 ∧ p.2 < q.2)

/-- The validity invariant of a solution approach: every pair of placed
points with known distance realizes that distance within `prec`. -/
def SolInv (d : ℕ → ℕ → ℝ) (prec : ℝ) (s : Sol) : Prop :=
  ∀ i j p q, nthP s i = some p → nthP s j = some q → d i j > -(1 / 2) →
    |dist p q - d i j| < prec

/-! ## Concrete instances used to settle the claims -/

/-- 3×3 matrix with `d01 = 0` and `d02 = d12 = 5` (a known zero distance). -/
def dC1 : ℕ → ℕ → ℝ := fun i j =>
  if i = j then 0
  else if (i = 0 ∧ j = 1) ∨ (i = 1 ∧ j = 0) then 0
  else if i < 3 ∧ j < 3 then 5
  else -1

/-- 2×2 matrix with `d01 = 3`. -/
def dW : ℕ → ℕ → ℝ := fun i j =>
  if i = j then 0 else if i < 2 ∧ j < 2 then 3 else -1

/-- Distances of a near-flat anchor test: point `2` at distance `1` from both
anchors. -/
def dC2 : ℕ → ℕ → ℝ := fun i j =>
  if i = 2 ∧ (j = 0 ∨ j = 1) then 1 else 0

/-- Anchors at `(0,0)` and `(41/20, 0)`, point `2` unplaced. -/
def solC2 : Sol := [some ((0 : ℝ), (0 : ℝ)), some ((41 / 20 : ℝ), (0 : ℝ)), none]

/-- Distances for the degenerate-Placer instance: point `3` at distance `5`
from both anchors and nominally at distance `100` from point `2`. -/
def dC3 : ℕ → ℕ → ℝ := fun i j =>
  if i = 3 ∧ (j = 0 ∨ j = 1) then 5 else if i = 3 ∧ j = 2 then 100 else 0

/-- Anchors at `(0,0)`, `(8,0)`, a third placed point at `(4,-200)`, point `3`
unplaced. -/
def solC3 : Sol :=
  [some ((0 : ℝ), (0 : ℝ)), some ((8 : ℝ), (0 : ℝ)),
   some ((4 : ℝ), (-200 : ℝ)), none]

/-- Distances for the Placer witness: point `2` at distance `1` from anchors
at mutual distance `2` (a flat triangle). -/
def dW3 : ℕ → ℕ → ℝ := fun i j =>
  if i = 2 ∧ (j = 0 ∨ j = 1) then 1 else 0

/-- Anchors at `(0,0)` and `(2,0)`, point `2` unplaced. -/
def solW3 : Sol := [some ((0 : ℝ), (0 : ℝ)), some ((2 : ℝ), (0 : ℝ)), none]

/-- 3×3 matrix where point `2` has unknown distances to both other points. -/
def dC4 : ℕ → ℕ → ℝ := fun i j =>
  if i = j then 0
  else if (i = 0 ∧ j = 1) ∨ (i = 1 ∧ j = 0) then 1
  else -1

/-- The validator-rejection matrix: `d01 = 1`, `d02 = 1`, `d12 = 5`. -/
def dC8 : ℕ → ℕ → ℝ := fun i j =>
  if i = j then 0
  else if (i = 1 ∧ j = 2) ∨ (i = 2 ∧ j = 1) then 5
  else if i < 3 ∧ j < 3 then 1
  else -1

/-- The 3-4-5 right triangle matrix: `d01 = 3`, `d02 = 5`, `d12 = 4`. -/
def d345 : ℕ → ℕ → ℝ := fun i j =>
  if i = j then 0
  else if (i = 0 ∧ j = 1) ∨ (i = 1 ∧ j = 0) then 3
  else if (i = 0 ∧ j = 2) ∨ (i = 2 ∧ j = 0) then 5
  else if (i = 1 ∧ j = 2) ∨ (i = 2 ∧ j = 1) then 4
  else -1

/-- The first solution of the 3-4-5 run. -/
def s345a : Sol :=
  [some ((0 : ℝ), (0 : ℝ)), some ((3 : ℝ), (0 : ℝ)), some ((3 : ℝ), (4 : ℝ))]

/-- The mirror solution of the 3-4-5 run. -/
def s345b : Sol :=
  [some ((0 : ℝ), (0 : ℝ)), some ((3 : ℝ), (0 : ℝ)), some ((3 : ℝ), (-4 : ℝ))]

/-- The degenerate solution returned by `triangulate` on `dC1` (all three
points collapsed to the origin by the zero-separation canonicalization). -/
def sC1deg : Sol :=
  [some ((0 : ℝ), (0 : ℝ)), some ((0 : ℝ), (0 : ℝ)), some ((0 : ℝ), (0 : ℝ))]

/-- The pre-canonicalization solution found on `dC1` from starting edge
`(0, 2)`: points `0` and `1` coincide. -/
def sC1pre : Sol :=
  [some ((0 : ℝ), (0 : ℝ)), some ((0 : ℝ), (0 : ℝ)), some ((5 : ℝ), (0 : ℝ))]

/-! ## Basic lemmas about the embedding -/

lemma sqrt_eval {y x : ℝ} (hy : 0 ≤ y) (h : y ^ 2 = x) : Real.sqrt x = y := by
  subst h; exact Real.sqrt_sq hy

lemma dist_eval {x1 y1 x2 y2 r : ℝ} (hr : 0 ≤ r)
    (h : (x1 - x2) ^ 2 + (y1 - y2) ^ 2 = r ^ 2) :
    dist (x1, y1) (x2, y2) = r :=
  sqrt_eval hr h.symm

lemma dist_comm (v w : Point) : dist v w = dist w v := by
  rw [dist, dist]; congr 1; ring

lemma dist_self (v : Point) : dist v v = 0 := by
  rw [dist]; simp

lemma nthP_nil (k : ℕ) : nthP [] k = none := rfl

lemma nthP_cons_zero (a : Option Point) (l : Sol) : nthP (a :: l) 0 = a := rfl

lemma nthP_cons_succ (a : Option Point) (l : Sol) (k : ℕ) :
    nthP (a :: l) (k + 1) = nthP l k := rfl

lemma nthP_some_lt {s : Sol} {k : ℕ} {p : Point} (h : nthP s k = some p) :
    k < s.length := by
  induction s generalizing k with
  | nil => simp [nthP, List.getD] at h
  | cons a l ih =>
    cases k with
    | zero => simp
    | succ k => exact Nat.succ_lt_succ (ih (by rwa [nthP_cons_succ] at h))

lemma nthP_set_self {s : Sol} {i : ℕ} {a : Option Point} (h : i < s.length) :
    nthP (s.set i a) i = a := by
  induction s generalizing i with
  | nil => simp at h
  | cons b l ih =>
    cases i with
    | zero => rfl
    | succ i =>
      rw [List.set_cons_succ, nthP_cons_succ]
      exact ih (Nat.lt_of_succ_lt_succ h)

lemma nthP_set_ne {s : Sol} {i j : ℕ} {a : Option Point} (h : i ≠ j) :
    nthP (s.set i a) j = nthP s j := by
  induction s generalizing i j with
  | nil => rfl
  | cons b l ih =>
    cases i with
    | zero =>
      cases j with
      | zero => exact absurd rfl h
      | succ j => rfl
    | succ i =>
      cases j with
      | zero => rfl
      | succ j =>
        rw [List.set_cons_succ, nthP_cons_succ, nthP_cons_succ]
        exact ih (fun hh => h (by rw [hh]))

lemma set_of_length_le {s : Sol} {i : ℕ} {a : Option Point}
    (h : s.length ≤ i) : s.set i a = s := by
  induction s generalizing i with
  | nil => rfl
  | cons b l ih =>
    cases i with
    | zero => simp at h
    | succ i => rw [List.set_cons_succ, ih (Nat.le_of_succ_le_succ h)]

lemma nthP_map_opt (g : Point → Point) (l : Sol) (k : ℕ) :
    nthP (l.map (Option.map g)) k = Option.map g (nthP l k) := by
  induction l generalizing k with
  | nil => rfl
  | cons a l ih =>
    cases k with
    | zero => rfl
    | succ k => rw [List.map_cons, nthP_cons_succ, nthP_cons_succ]; exact ih k

lemma nthP_replicate (n k : ℕ) :
    nthP (List.replicate n (none : Option Point)) k = none := by
  induction n generalizing k with
  | zero => rfl
  | succ n ih =>
    cases k with
    | zero => rfl
    | succ k => rw [List.replicate_succ, nthP_cons_succ]; exact ih k

lemma tranmat_canon {c : ℝ} (hc : 0 < c) :
    tranmat ((0 : ℝ), (0 : ℝ)) (c, 0) =
      ((((1 : ℝ), (0 : ℝ)), ((0 : ℝ), (1 : ℝ))), ((0 : ℝ), (0 : ℝ))) := by
  have hd : dist ((0 : ℝ), (0 : ℝ)) (c, 0) = c := dist_eval hc.le (by ring)
  simp only [tranmat, hd, mulVec, pneg]
  norm_num [div_self hc.ne']

lemma invtranmat_id :
    invtranmat ((((1 : ℝ), (0 : ℝ)), ((0 : ℝ), (1 : ℝ))), ((0 : ℝ), (0 : ℝ))) =
      ((((1 : ℝ), (0 : ℝ)), ((0 : ℝ), (1 : ℝ))), ((0 : ℝ), (0 : ℝ))) := by
  simp only [invtranmat, mulVec, pneg]
  norm_num

lemma affinef_id (x : Point) :
    affinef ((((1 : ℝ), (0 : ℝ)), ((0 : ℝ), (1 : ℝ))), ((0 : ℝ), (0 : ℝ))) x = x := by
  simp only [affinef, mulVec, padd]
  cases x with
  | mk x1 x2 => norm_num

/-! ## Claim C2: the anchor-edge triangle test of the Placer -/

/-- C2 (amended): when both distances from the target to the two anchors are
known, the anchor-edge triangle test of `pntcoord` returns the `Contradiction`
outcome `([], 2)` exactly when `a + b < c`, where `c` is the Euclidean
distance between the anchors' coordinates; the tolerance `prec` is *not*
subtracted from `c` before comparing.  When `a + b ≥ c` the test passes and
candidate generation proceeds. -/
theorem C2_pntcoord_triangle_test (sol : Sol) (i n m : ℕ) (d : ℕ → ℕ → ℝ)
    (prec : ℝ) (hn : ¬ d i n < -(1 / 2)) (hm : ¬ d i m < -(1 / 2)) :
    (d i n + d i m < anchorDist sol n m → pntcoord sol i n m d prec = ([], 2)) ∧
    (¬ d i n + d i m < anchorDist sol n m →
      pntcoord sol i n m d prec = pntcoordMain sol i n m d prec) := by
  constructor
  · intro hlt
    rw [pntcoord, if_neg (not_or.mpr ⟨hn, hm⟩), if_pos hlt]
  · intro hge
    rw [pntcoord, if_neg (not_or.mpr ⟨hn, hm⟩), if_neg hge]

/-- C2 witness: a concrete run through the triangle test: `a = b = 1`,
anchors at distance `3`, giving the contradiction outcome. -/
theorem C2_pntcoord_triangle_test_witness :
    pntcoord [some ((0 : ℝ), (0 : ℝ)), some ((3 : ℝ), (0 : ℝ)), none] 2 0 1
      dC2 (1 / 10) = ([], 2) := by
  have had : anchorDist [some ((0 : ℝ), (0 : ℝ)), some ((3 : ℝ), (0 : ℝ)), none]
      0 1 = 3 := dist_eval (by norm_num) (by norm_num)
  refine (C2_pntcoord_triangle_test _ 2 0 1 dC2 (1 / 10) ?_ ?_).1 ?_
  · norm_num [dC2]
  · norm_num [dC2]
  · rw [had]; norm_num [dC2]

/-- C2 counterexample: with `prec = 1/10`, `a = b = 1` and anchors at
Euclidean distance `41/20`, the code returns the contradiction outcome even
though `a + b < c - prec` fails, refuting the claim that the tolerance is
subtracted before comparing. -/
theorem C2_cex :
    pntcoord solC2 2 0 1 dC2 (1 / 10) = ([], 2) ∧
    ¬ dC2 2 0 + dC2 2 1 < anchorDist solC2 0 1 - 1 / 10 := by
  have had : anchorDist solC2 0 1 = 41 / 20 := dist_eval (by norm_num) (by norm_num)
  constructor
  · rw [pntcoord, if_neg (by norm_num [dC2]), if_pos (by rw [had]; norm_num [dC2])]
  · rw [had]; norm_num [dC2]

/-! ## Claim C3: candidate lists of a Placed outcome -/

/-- C3 (amended): whenever at least one of the two candidate positions passes
the validity check, `pntcoord` returns outcome `0` (Placed) with the first
candidate listed iff it is valid and the second listed iff it is valid *and*
the two roots are distinct (`|y1 - y2| ≥ prec/4`); consequently, when only
the second candidate is valid and the roots coincide, the Placed outcome
carries an empty candidate list. -/
theorem C3_pntcoord_placed (sol : Sol) (i n m : ℕ) (d : ℕ → ℕ → ℝ) (prec : ℝ)
    (hn : ¬ d i n < -(1 / 2)) (hm : ¬ d i m < -(1 / 2))
    (htri : ¬ d i n + d i m < anchorDist sol n m)
    (hv : validAt sol i d prec (candPos sol i n m d (candYs sol i n m d).1) ∨
          validAt sol i d prec (candPos sol i n m d (candYs sol i n m d).2)) :
    pntcoord sol i n m d prec =
      ((if validAt sol i d prec (candPos sol i n m d (candYs sol i n m d).1) then
          [candPos sol i n m d (candYs sol i n m d).1] else []) ++
       (if validAt sol i d prec (candPos sol i n m d (candYs sol i n m d).2) ∧
           ¬ |(candYs sol i n m d).1 - (candYs sol i n m d).2| < prec / 4 then
          [candPos sol i n m d (candYs sol i n m d).2] else []), 0) := by
  rw [pntcoord, if_neg (not_or.mpr ⟨hn, hm⟩), if_neg htri, pntcoordMain, if_pos hv]

/-- C3 witness: a flat-triangle instance (`a = b = 1`, `c = 2`): both roots
coincide at `y = 0`, both candidates are valid, and the Placed outcome
carries exactly one candidate `(1, 0)`. -/
theorem C3_pntcoord_placed_witness :
    pntcoord solW3 2 0 1 dW3 1 = ([((1 : ℝ), (0 : ℝ))], 0) := by
  have hg0 : getP solW3 0 = ((0 : ℝ), (0 : ℝ)) := rfl
  have hg1 : getP solW3 1 = ((2 : ℝ), (0 : ℝ)) := rfl
  have had : anchorDist solW3 0 1 = 2 := dist_eval (by norm_num) (by norm_num)
  have hd0 : dW3 2 0 = 1 := by norm_num [dW3]
  have hd1 : dW3 2 1 = 1 := by norm_num [dW3]
  have hys : candYs solW3 2 0 1 dW3 = (0, -0) := by
    rw [candYs, had, hd0, hd1, yvalue, if_pos (by norm_num)]
  have hx : xvalue (1 : ℝ) 1 2 = 1 := by rw [xvalue]; norm_num
  have hpos : ∀ y : ℝ, candPos solW3 2 0 1 dW3 y = (1, y) := by
    intro y
    rw [candPos, hg0, hg1, had, hd0, hd1, tranmat_canon (by norm_num), invtranmat_id,
      affinef_id, hx]
  have hval : validAt solW3 2 dW3 1 ((1 : ℝ), (0 : ℝ)) := by
    intro k hk q hq hdk
    have hk3 : k < 3 := hk
    interval_cases k
    · rw [show nthP solW3 0 = some ((0 : ℝ), (0 : ℝ)) from rfl] at hq
      cases hq
      rw [hd0, dist_eval (by norm_num : (0:ℝ) ≤ 1) (by norm_num)]
      norm_num
    · rw [show nthP solW3 1 = some ((2 : ℝ), (0 : ℝ)) from rfl] at hq
      cases hq
      rw [hd1, dist_eval (by norm_num : (0:ℝ) ≤ 1) (by norm_num)]
      norm_num
    · rw [show nthP solW3 2 = none from rfl] at hq
      cases hq
  have happ := C3_pntcoord_placed solW3 2 0 1 dW3 1 (by norm_num [dW3])
    (by norm_num [dW3]) (by rw [had]; norm_num [dW3])
    (by rw [hys, hpos]; exact Or.inl (by simpa using hval))
  rw [hys, hpos, hpos] at happ
  rw [happ, if_pos (show validAt solW3 2 dW3 1 (1, ((0 : ℝ), (-0 : ℝ)).1) from hval),
    if_neg (fun h => h.2 (by norm_num))]
  simp

/-- C3 counterexample: with anchors `(0,0)`, `(8,0)`, a third placed point at
`(4,-200)`, target distances `5, 5, 100` and `prec = 100`: the second
candidate `(4,-3)` passes the validity check, yet `pntcoord` returns the
Placed outcome with an *empty* candidate list (the roots coincide within
`prec/4` and the first candidate is invalid), refuting "a Placed outcome
always carries at least one candidate position". -/
theorem C3_cex :
    pntcoord solC3 3 0 1 dC3 100 = ([], 0) ∧
    validAt solC3 3 dC3 100 (candPos solC3 3 0 1 dC3 (candYs solC3 3 0 1 dC3).2) := by
  have hg0 : getP solC3 0 = ((0 : ℝ), (0 : ℝ)) := rfl
  have hg1 : getP solC3 1 = ((8 : ℝ), (0 : ℝ)) := rfl
  have had : anchorDist solC3 0 1 = 8 := dist_eval (by norm_num) (by norm_num)
  have hd0 : dC3 3 0 = 5 := by norm_num [dC3]
  have hd1 : dC3 3 1 = 5 := by norm_num [dC3]
  have hd2 : dC3 3 2 = 100 := by norm_num [dC3]
  have hys : candYs solC3 3 0 1 dC3 = (3, -3) := by
    rw [candYs, had, hd0, hd1, yvalue, if_neg (by norm_num)]
    have h1 : max (2 * (((5:ℝ) * 5) ^ 2 + (5 * 8) ^ 2 + (5 * 8) ^ 2)
        - ((5:ℝ) ^ 4 + 5 ^ 4 + 8 ^ 4)) 0 = 2304 := by norm_num
    rw [h1, sqrt_eval (by norm_num : (0:ℝ) ≤ 48) (by norm_num)]
    norm_num
  have hx : xvalue (5 : ℝ) 5 8 = 4 := by rw [xvalue]; norm_num
  have hpos : ∀ y : ℝ, candPos solC3 3 0 1 dC3 y = (4, y) := by
    intro y
    rw [candPos, hg0, hg1, had, hd0, hd1, tranmat_canon (by norm_num), invtranmat_id,
      affinef_id, hx]
  have hv2 : validAt solC3 3 dC3 100 ((4 : ℝ), (-3 : ℝ)) := by
    intro k hk q hq hdk
    have hk4 : k < 4 := hk
    interval_cases k
    · rw [show nthP solC3 0 = some ((0 : ℝ), (0 : ℝ)) from rfl] at hq
      cases hq
      rw [hd0, dist_eval (by norm_num : (0:ℝ) ≤ 5) (by norm_num)]
      norm_num
    · rw [show nthP solC3 1 = some ((8 : ℝ), (0 : ℝ)) from rfl] at hq
      cases hq
      rw [hd1, dist_eval (by norm_num : (0:ℝ) ≤ 5) (by norm_num)]
      norm_num
    · rw [show nthP solC3 2 = some ((4 : ℝ), (-200 : ℝ)) from rfl] at hq
      cases hq
      rw [hd2, dist_eval (by norm_num : (0:ℝ) ≤ 197) (by norm_num)]
      norm_num
    · rw [show nthP solC3 3 = none from rfl] at hq
      cases hq
  have hv1 : ¬ validAt solC3 3 dC3 100 ((4 : ℝ), (3 : ℝ)) := by
    intro h
    have := h 2 (by norm_num [solC3]) ((4 : ℝ), (-200 : ℝ)) rfl (by rw [hd2]; norm_num)
    rw [hd2, dist_eval (by norm_num : (0:ℝ) ≤ 203) (by norm_num)] at this
    norm_num at this
  constructor
  · rw [pntcoord, if_neg (by norm_num [dC3]), if_neg (by rw [had]; norm_num [dC3]),
      pntcoordMain, if_pos (by rw [hys]; exact Or.inr (by rw [hpos]; simpa using hv2))]
    rw [hys, hpos, hpos]
    rw [if_neg (by simpa using hv1),
      if_neg (by rintro ⟨-, hsame⟩; exact hsame (by norm_num))]
    simp
  · rw [hys, hpos]
    simpa using hv2

/-! ## Claim C4: fate of frontier members that cannot make progress -/

lemma stepF_iterate_nil (d : ℕ → ℕ → ℝ) (prec : ℝ) (k : ℕ) :
    (stepF d prec)^[k] [] = [] := by
  induction k with
  | zero => rfl
  | succ k ih =>
    rw [Function.iterate_succ_apply, show stepF d prec [] = [] from rfl]
    exact ih

lemma addpoints_dC4_eval : addpoints (initSol 3 0 1 (dC4 0 1)) dC4 1 = ([], 1) := by
  have hpc : pntcoord (initSol 3 0 1 (dC4 0 1)) 2 0 1 dC4 1 = ([], 1) := by
    rw [pntcoord, if_pos (Or.inl (by norm_num [dC4]))]
  have h2 : nthP (initSol 3 0 1 (dC4 0 1)) 2 = none := rfl
  have hap : addpoint (initSol 3 0 1 (dC4 0 1)) 2 dC4 1 = ([], 1) := by
    rw [addpoint, h2,
      show lexPairs (placedIdx (initSol 3 0 1 (dC4 0 1))) = [(0, 1)] from rfl]
    simp only [Option.isSome_none, Bool.false_eq_true, if_false, addpointGo, hpc]
    norm_num
  rw [addpoints, show unplacedIdx (initSol 3 0 1 (dC4 0 1)) = [2] from rfl]
  simp only [addpointsGo, hap]
  norm_num [addpointsGo]

/-- C4 (amended): a frontier member for which a full pass over all unplaced
points yields no new placement (`addpoints` state ≠ 0) is *discarded*, not
kept: it contributes nothing to the next frontier, and when this holds for
every member the enumeration of `triangulatesgl` returns the empty list, so
points that can never be constrained kill the whole branch rather than
remaining absent in a surviving solution. -/
theorem C4_no_progress_dropped (d : ℕ → ℕ → ℝ) (N sp1 sp2 : ℕ) (prec : ℝ)
    (hN : 3 ≤ N) (hkn : ¬ d sp1 sp2 < -(1 / 2))
    (hall : (addpoints (initSol N sp1 sp2 (d sp1 sp2)) d prec).2 ≠ 0) :
    (∀ res : List Sol, (∀ s ∈ res, (addpoints s d prec).2 ≠ 0) →
      stepF d prec res = []) ∧
    triangulatesgl d N sp1 sp2 prec = [] := by
  have hstep : ∀ res : List Sol, (∀ s ∈ res, (addpoints s d prec).2 ≠ 0) →
      stepF d prec res = [] := by
    intro res hres
    induction res with
    | nil => rfl
    | cons s rest ih =>
      rw [stepF, List.flatMap_cons, if_neg (hres s (List.mem_cons_self s rest))]
      have h := ih (fun s hs => hres s (List.mem_cons_of_mem _ hs))
      rw [stepF] at h
      simpa using h
  refine ⟨hstep, ?_⟩
  rw [triangulatesgl, if_neg hkn]
  obtain ⟨k, hk⟩ : ∃ k, N - 2 = k + 1 := ⟨N - 3, by omega⟩
  rw [hk, Function.iterate_succ_apply]
  rw [hstep [initSol N sp1 sp2 (d sp1 sp2)] (by
    intro s hs
    rw [List.mem_singleton] at hs
    rw [hs]
    exact hall)]
  exact stepF_iterate_nil d prec k

/-- C4 witness: the one-pass drop at a concrete frontier: the single member
of the initial frontier for `dC4` (distances of point `2` unknown) makes no
progress, and the whole next frontier is empty. -/
theorem C4_no_progress_dropped_witness :
    stepF dC4 1 [initSol 3 0 1 (dC4 0 1)] = [] := by
  refine (C4_no_progress_dropped dC4 3 0 1 1 (by norm_num) (by norm_num [dC4])
    ?_).1 [initSol 3 0 1 (dC4 0 1)] ?_
  · rw [addpoints_dC4_eval]; norm_num
  · intro s hs
    rw [List.mem_singleton] at hs
    rw [hs, addpoints_dC4_eval]
    norm_num

/-- C4 counterexample: for the 3-point matrix in which point `2` has unknown
distances to both points `0` and `1`, the full pass over the unplaced points
of the initial member yields no new placement and no contradiction
(`addpoints` state `1`), yet `triangulatesgl` returns `[]`: the member does
*not* survive as a best-effort placement with point `2` absent. -/
theorem C4_cex :
    addpoints (initSol 3 0 1 (dC4 0 1)) dC4 1 = ([], 1) ∧
    triangulatesgl dC4 3 0 1 1 = [] := by
  refine ⟨addpoints_dC4_eval, ?_⟩
  rw [triangulatesgl, if_neg (by norm_num [dC4])]
  rw [show (3 : ℕ) - 2 = 1 from rfl, Function.iterate_one, stepF,
    List.flatMap_cons, if_neg (by rw [addpoints_dC4_eval]; norm_num)]
  rfl

/-! ## Claims C8 and C10: the validation gate of `triangulate` -/

/-- C10: `triangulate` raises the invalid-distance-matrix error exactly when
`distvalid(distances, prec/3)` fails — the validation tolerance is `prec/3`,
not `prec` — and in particular any fully known triple violating one of the
triangle inequalities by more than `|prec/3|` is rejected before any search. -/
theorem C10_validation_tolerance (d : ℕ → ℕ → ℝ) (N : ℕ) (prec : ℝ) (ap : Bool) :
    (triangulate d N prec ap = Except.error "Given distances are not valid" ↔
      ¬ distvalid d N (prec / 3)) ∧
    (∀ i j k, i < j → j < k → k < N →
      d i j > -(1 / 2) → d i k > -(1 / 2) → d j k > -(1 / 2) →
      (d i j + d j k < d i k - |prec / 3| ∨ d i k + d k j < d i j - |prec / 3| ∨
       d j i + d i k < d j k - |prec / 3|) →
      triangulate d N prec ap = Except.error "Given distances are not valid") := by
  have herr : ∀ hdv : ¬ distvalid d N (prec / 3),
      triangulate d N prec ap = Except.error "Given distances are not valid" :=
    fun hdv => by rw [triangulate, if_pos hdv]
  constructor
  · constructor
    · intro h hdv
      rw [triangulate, if_neg (not_not_intro hdv)] at h
      split_ifs at h
    · exact herr
  · intro i j k hij hjk hkN hkn1 hkn2 hkn3 hviol
    refine herr ?_
    rintro ⟨-, -, htri⟩
    obtain ⟨h1, h2, h3⟩ := htri i j k hij hjk hkN hkn1 hkn2 hkn3
    rcases hviol with h | h | h <;> linarith

/-- C10 witness: a concrete rejection through the triple-violation clause:
`dC8` with `prec = 0`. -/
theorem C10_validation_tolerance_witness :
    triangulate dC8 3 0 false = Except.error "Given distances are not valid" :=
  (C10_validation_tolerance dC8 3 0 false).2 0 1 2 (by norm_num) (by norm_num)
    (by norm_num) (by norm_num [dC8]) (by norm_num [dC8]) (by norm_num [dC8])
    (Or.inr (Or.inr (by norm_num [dC8])))

/-- C8: the matrix `d01 = 1`, `d02 = 1`, `d12 = 5` violates the triangle
inequality (`5 > 1 + 1` by `3`), so `triangulate` raises the
invalid-distance-matrix error before any search, for every tolerance with
`|prec| < 9` (so in particular for every reasonable small tolerance; the
validator compares against `|prec/3|`). -/
theorem C8_invalid_matrix_rejected (prec : ℝ) (ap : Bool) (hp : |prec| < 9) :
    triangulate dC8 3 prec ap = Except.error "Given distances are not valid" := by
  have habs : |prec / 3| < 3 := by
    rw [abs_div, show |(3 : ℝ)| = 3 from by norm_num]
    linarith
  have hdv : ¬ distvalid dC8 3 (prec / 3) := by
    rintro ⟨-, -, htri⟩
    obtain ⟨-, -, h3⟩ := htri 0 1 2 (by norm_num) (by norm_num) (by norm_num)
      (by norm_num [dC8]) (by norm_num [dC8]) (by norm_num [dC8])
    rw [show dC8 1 0 = 1 from by norm_num [dC8],
      show dC8 0 2 = 1 from by norm_num [dC8],
      show dC8 1 2 = 5 from by norm_num [dC8]] at h3
    linarith
  rw [triangulate, if_pos hdv]

/-- C8 witness: rejection at the spec's canonical tolerance `1e-6`. -/
theorem C8_invalid_matrix_rejected_witness :
    triangulate dC8 3 (1 / 1000000) false =
      Except.error "Given distances are not valid" :=
  C8_invalid_matrix_rejected (1 / 1000000) false
    (by rw [show |(1 / 1000000 : ℝ)| = 1 / 1000000 from abs_of_pos (by norm_num)]
        norm_num)

/-! ## Claim C6: the orchestrator's starting-edge policy -/

lemma collectGo_true (d : ℕ → ℕ → ℝ) (N : ℕ) (prec : ℝ) :
    ∀ (prs : List (ℕ × ℕ)) (acc : List Sol),
      collectGo d N prec true prs acc =
        acc ++ prs.flatMap (fun nm => triangulatesgl d N nm.1 nm.2 prec) := by
  intro prs
  induction prs with
  | nil => intro acc; simp [collectGo]
  | cons nm rest ih =>
    intro acc
    rw [collectGo, if_neg (fun h => absurd h.2 (by simp)), ih]
    simp

lemma collectGo_false (d : ℕ → ℕ → ℝ) (N : ℕ) (prec : ℝ) :
    ∀ prs : List (ℕ × ℕ),
      collectGo d N prec false prs [] = firstNonempty d N prec prs := by
  intro prs
  induction prs with
  | nil => rfl
  | cons nm rest ih =>
    by_cases ht : triangulatesgl d N nm.1 nm.2 prec = []
    · rw [collectGo, firstNonempty, if_pos ht, ht, if_neg (by simp)]
      simpa using ih
    · rw [collectGo, firstNonempty, if_neg ht, if_pos (by simp [ht])]
      simp

lemma lexPairs_cons (x : ℕ) (xs : List ℕ) :
    lexPairs (x :: xs) = xs.map (fun y => (x, y)) ++ lexPairs xs := rfl

lemma lexPairs_append_mem (xs : List ℕ) (y : ℕ) (p : ℕ × ℕ) :
    p ∈ lexPairs (xs ++ [y]) ↔ p ∈ lexPairs xs ∨ (p.1 ∈ xs ∧ p.2 = y) := by
  induction xs with
  | nil => simp [lexPairs]
  | cons x xs ih =>
    rw [List.cons_append, lexPairs_cons, lexPairs_cons]
    constructor
    · intro h
      rcases List.mem_append.mp h with h | h
      · obtain ⟨z, hz, rfl⟩ := List.mem_map.mp h
        rcases List.mem_append.mp hz with hz | hz
        · exact Or.inl (List.mem_append.mpr (Or.inl (List.mem_map.mpr ⟨z, hz, rfl⟩)))
        · rw [List.mem_singleton] at hz
          subst hz
          exact Or.inr ⟨List.mem_cons_self x xs, rfl⟩
      · rcases ih.mp h with h | h
        · exact Or.inl (List.mem_append.mpr (Or.inr h))
        · exact Or.inr ⟨List.mem_cons_of_mem x h.1, h.2⟩
    · intro h
      rcases h with h | ⟨h1, h2⟩
      · rcases List.mem_append.mp h with h | h
        · obtain ⟨z, hz, rfl⟩ := List.mem_map.mp h
          exact List.mem_append.mpr (Or.inl (List.mem_map.mpr
            ⟨z, List.mem_append.mpr (Or.inl hz), rfl⟩))
        · exact List.mem_append.mpr (Or.inr (ih.mpr (Or.inl h)))
      · rcases List.mem_cons.mp h1 with h1 | h1
        · refine List.mem_append.mpr (Or.inl (List.mem_map.mpr
            ⟨y, List.mem_append.mpr (Or.inr (List.mem_singleton_self y)), ?_⟩))
          exact Prod.ext h1.symm h2.symm
        · exact List.mem_append.mpr (Or.inr (ih.mpr (Or.inr ⟨h1, h2⟩)))

lemma lexPairs_range_mem (N : ℕ) (p : ℕ × ℕ) :
    p ∈ lexPairs (List.range N) ↔ p.1 < p.2 ∧ p.2 < N := by
  induction N with
  | zero => simp [lexPairs]
  | succ N ih =>
    rw [List.range_succ, lexPairs_append_mem, ih, List.mem_range]
    omega

lemma lexPairs_fst_mem : ∀ {l : List ℕ} {p : ℕ × ℕ}, p ∈ lexPairs l → p.1 ∈ l := by
  intro l
  induction l with
  | nil => intro p h; simp [lexPairs] at h
  | cons x xs ih =>
    intro p h
    rcases List.mem_append.mp h with h | h
    · obtain ⟨z, hz, rfl⟩ := List.mem_map.mp h
      exact List.mem_cons_self x xs
    · exact List.mem_cons_of_mem x (ih h)

lemma lexPairs_pairwise : ∀ {l : List ℕ}, l.Pairwise (· < ·) →
    (lexPairs l).Pairwise lexLT := by
  intro l
  induction l with
  | nil => intro h; exact List.Pairwise.nil
  | cons x xs ih =>
    intro h
    obtain ⟨hx, hxs⟩ := List.pairwise_cons.mp h
    show (List.map (fun y => (x, y)) xs ++ lexPairs xs).Pairwise lexLT
    rw [List.pairwise_append]
    refine ⟨?_, ih hxs, ?_⟩
    · rw [List.pairwise_map]
      exact hxs.imp (fun hab => Or.inr ⟨rfl, hab⟩)
    · intro a ha b hb
      obtain ⟨z, hz, rfl⟩ := List.mem_map.mp ha
      exact Or.inl (hx b.1 (lexPairs_fst_mem hb))

/-- C6: the orchestrator enumerates starting edges `(i, j)` with `i < j` in
ascending lexicographic order; an edge with unknown distance contributes no
results; with `all_pos = false` the accumulation stops at the first edge
whose enumeration is non-empty, and with `all_pos = true` the results of all
edges are concatenated (deduplication happens only afterwards, on
`rawResults`). -/
theorem C6_orchestrator (d : ℕ → ℕ → ℝ) (N : ℕ) (prec : ℝ) :
    (∀ p : ℕ × ℕ, p ∈ lexPairs (List.range N) ↔ p.1 < p.2 ∧ p.2 < N) ∧
    (lexPairs (List.range N)).Pairwise lexLT ∧
    (∀ n m, d n m < -(1 / 2) → triangulatesgl d N n m prec = []) ∧
    rawResults d N prec false = firstNonempty d N prec (lexPairs (List.range N)) ∧
    rawResults d N prec true =
      (lexPairs (List.range N)).flatMap
        (fun nm => triangulatesgl d N nm.1 nm.2 prec) := by
  refine ⟨lexPairs_range_mem N, lexPairs_pairwise (List.pairwise_lt_range N), ?_, ?_, ?_⟩
  · intro n m h
    rw [triangulatesgl, if_pos h]
  · exact collectGo_false d N prec (lexPairs (List.range N))
  · rw [rawResults, collectGo_true]
    simp

/-- C6 witness: the unknown-edge clause at a concrete edge: `dC4 0 2` is the
unknown sentinel, so edge `(0, 2)` contributes no results. -/
theorem C6_orchestrator_witness : triangulatesgl dC4 3 0 2 1 = [] :=
  (C6_orchestrator dC4 3 1).2.2.1 0 2 (by norm_num [dC4])

/-! ## Claim C7: solution equality and deduplication -/

lemma dedupGo_sublist (prec : ℝ) :
    ∀ (l acc : List Sol), (dedupGo prec acc l).Sublist (acc ++ l) := by
  intro l
  induction l with
  | nil => intro acc; simp [dedupGo]
  | cons r rest ih =>
    intro acc
    rw [dedupGo]
    by_cases hc : ∀ j ∈ acc, ¬ solequal r j prec
    · rw [if_pos hc]
      have h := ih (acc ++ [r])
      rwa [List.append_assoc, List.singleton_append] at h
    · rw [if_neg hc]
      exact (ih acc).trans (List.Sublist.append_left (List.sublist_cons_self r rest) acc)

lemma mem_ite_append {α : Type} {c1 c2 : Prop} [Decidable c1] [Decidable c2]
    {x1 x2 p : α}
    (h : p ∈ (if c1 then [x1] else []) ++ (if c2 then [x2] else [])) :
    (c1 ∧ p = x1) ∨ (c2 ∧ p = x2) := by
  rcases List.mem_append.mp h with h | h <;> split_ifs at h with hc
  · exact Or.inl ⟨hc, List.mem_singleton.mp h⟩
  · simp at h
  · exact Or.inr ⟨hc, List.mem_singleton.mp h⟩
  · simp at h

lemma pntcoord_valid_of_state_zero {sol : Sol} {i n m : ℕ} {d : ℕ → ℕ → ℝ}
    {prec : ℝ} {pts : List Point}
    (hp : pntcoord sol i n m d prec = (pts, 0)) :
    ∀ p ∈ pts, validAt sol i d prec p := by
  rw [pntcoord] at hp
  split_ifs at hp with h1 h2
  · simp at hp
  · simp at hp
  · rw [pntcoordMain] at hp
    by_cases h3 : validAt sol i d prec (candPos sol i n m d (candYs sol i n m d).1) ∨
        validAt sol i d prec (candPos sol i n m d (candYs sol i n m d).2)
    · rw [if_pos h3] at hp
      injection hp with hfst hsnd
      intro p hpmem
      rw [← hfst] at hpmem
      rcases mem_ite_append hpmem with ⟨hc, rfl⟩ | ⟨hc, rfl⟩
      · exact hc
      · exact hc.1
    · rw [if_neg h3] at hp
      simp at hp

lemma addpointGo_mem {sol : Sol} {i : ℕ} {d : ℕ → ℕ → ℝ} {prec : ℝ} :
    ∀ (prs : List (ℕ × ℕ)) {sols : List Sol} {st : ℕ},
      addpointGo sol i d prec prs = (sols, st) → ∀ s' ∈ sols,
      ∃ p, validAt sol i d prec p ∧ s' = sol.set i (some p) := by
  intro prs
  induction prs with
  | nil =>
    intro sols st h s' hs'
    injection h with h1 h2
    rw [← h1] at hs'
    simp at hs'
  | cons nm rest ih =>
    intro sols st h s' hs'
    rw [addpointGo] at h
    split_ifs at h with h0 h2
    · injection h with h1 hst
      rw [← h1] at hs'
      obtain ⟨p, hpmem, rfl⟩ := List.mem_map.mp hs'
      refine ⟨p, ?_, rfl⟩
      have hpc : pntcoord sol i nm.1 nm.2 d prec =
          ((pntcoord sol i nm.1 nm.2 d prec).1, 0) := by
        rw [← h0]
      exact pntcoord_valid_of_state_zero hpc p hpmem
    · injection h with h1 hst
      rw [← h1] at hs'
      simp at hs'
    · exact ih h s' hs'

lemma addpoint_mem {sol : Sol} {i : ℕ} {d : ℕ → ℕ → ℝ} {prec : ℝ}
    {sols : List Sol} {st : ℕ} (h : addpoint sol i d prec = (sols, st)) :
    ∀ s' ∈ sols, s' = sol ∨
      ∃ p, validAt sol i d prec p ∧ s' = sol.set i (some p) := by
  rw [addpoint] at h
  split_ifs at h with hi
  · injection h with h1 h2
    intro s' hs'
    rw [← h1] at hs'
    rw [List.mem_singleton] at hs'
    exact Or.inl hs'
  · intro s' hs'
    exact Or.inr (addpointGo_mem _ h s' hs')

lemma addpointsGo_mem {sol : Sol} {d : ℕ → ℕ → ℝ} {prec : ℝ} :
    ∀ (is' : List ℕ) (pf : Bool) (acc : List Sol) {sols : List Sol} {st : ℕ},
      addpointsGo sol d prec is' pf acc = (sols, st) → ∀ s' ∈ sols,
      s' ∈ acc ∨ s' = sol ∨
        ∃ i p, validAt sol i d prec p ∧ s' = sol.set i (some p) := by
  intro is'
  induction is' with
  | nil =>
    intro pf acc sols st h s' hs'
    injection h with h1 h2
    rw [← h1] at hs'
    exact Or.inl hs'
  | cons i rest ih =>
    intro pf acc sols st h s' hs'
    rw [addpointsGo] at h
    split_ifs at h with h0 h2
    · rcases ih _ _ h s' hs' with hmem | h | h
      · rcases List.mem_append.mp hmem with hmem | hmem
        · exact Or.inl hmem
        · have happ : addpoint sol i d prec =
              ((addpoint sol i d prec).1, (addpoint sol i d prec).2) := rfl
          rcases addpoint_mem happ s' hmem with h | ⟨p, hp1, hp2⟩
          · exact Or.inr (Or.inl h)
          · exact Or.inr (Or.inr ⟨i, p, hp1, hp2⟩)
      · exact Or.inr (Or.inl h)
      · exact Or.inr (Or.inr h)
    · injection h with h1 h2
      rw [← h1] at hs'
      simp at hs'
    · exact ih _ _ h s' hs'

lemma addpoints_mem {sol : Sol} {d : ℕ → ℕ → ℝ} {prec : ℝ} {s' : Sol}
    (h : s' ∈ (addpoints sol d prec).1) :
    s' = sol ∨ ∃ i p, validAt sol i d prec p ∧ s' = sol.set i (some p) := by
  have happ : addpointsGo sol d prec (unplacedIdx sol) false [] =
      ((addpoints sol d prec).1, (addpoints sol d prec).2) := rfl
  rcases addpointsGo_mem _ _ _ happ s' h with h | h | h
  · simp at h
  · exact Or.inl h
  · exact Or.inr h

lemma stepF_mem {d : ℕ → ℕ → ℝ} {prec : ℝ} {res : List Sol} {s' : Sol}
    (h : s' ∈ stepF d prec res) :
    ∃ s ∈ res, s' ∈ (addpoints s d prec).1 := by
  rw [stepF] at h
  obtain ⟨s, hs, hmem⟩ := List.mem_flatMap.mp h
  split_ifs at hmem with h0
  · exact ⟨s, hs, hmem⟩
  · simp at hmem

lemma step_member_inv {d : ℕ → ℕ → ℝ} {prec : ℝ} {N : ℕ}
    (hprec : 0 < prec)
    (hsym : ∀ a b, a < N → b < N → d a b = d b a)
    (hdiag : ∀ a, a < N → d a a = 0)
    {sol s' : Sol} (hlen : sol.length = N) (hinv : SolInv d prec sol)
    (h : s' = sol ∨ ∃ i p, validAt sol i d prec p ∧ s' = sol.set i (some p)) :
    s'.length = N ∧ SolInv d prec s' := by
  rcases h with rfl | ⟨i, p, hval, rfl⟩
  · exact ⟨hlen, hinv⟩
  by_cases hiN : i < sol.length
  case neg =>
    rw [set_of_length_le (le_of_not_lt hiN)]
    exact ⟨hlen, hinv⟩
  case pos =>
    refine ⟨by rw [List.length_set]; exact hlen, ?_⟩
    intro a b pa qb hpa hqb hknown
    by_cases hai : a = i
    · rw [hai, nthP_set_self hiN] at hpa
      cases hpa
      by_cases hbi : b = i
      · rw [hbi, nthP_set_self hiN] at hqb
        cases hqb
        rw [hai, hbi, dist_self, hdiag i (hlen ▸ hiN)]
        simpa using hprec
      · rw [nthP_set_ne (fun hh => hbi hh.symm)] at hqb
        have hbl := nthP_some_lt hqb
        rw [hai] at hknown ⊢
        rw [dist_comm]
        exact hval b hbl qb hqb hknown
    · by_cases hbi : b = i
      · rw [hbi, nthP_set_self hiN] at hqb
        cases hqb
        rw [nthP_set_ne (fun hh => hai hh.symm)] at hpa
        have hal := nthP_some_lt hpa
        have hsymai : d a i = d i a := hsym a i (hlen ▸ hal) (hlen ▸ hiN)
        rw [hbi] at hknown ⊢
        have hk : d i a > -(1 / 2) := by rw [← hsymai]; exact hknown
        rw [hsymai]
        exact hval a hal pa hpa hk
      · rw [nthP_set_ne (fun hh => hai hh.symm)] at hpa
        rw [nthP_set_ne (fun hh => hbi hh.symm)] at hqb
        exact hinv a b pa qb hpa hqb hknown

lemma stepF_iterate_inv {d : ℕ → ℕ → ℝ} {prec : ℝ} {N : ℕ}
    (hprec : 0 < prec)
    (hsym : ∀ a b, a < N → b < N → d a b = d b a)
    (hdiag : ∀ a, a < N → d a a = 0) :
    ∀ (K : ℕ) (L : List Sol), (∀ s ∈ L, s.length = N ∧ SolInv d prec s) →
      ∀ s ∈ (stepF d prec)^[K] L, s.length = N ∧ SolInv d prec s := by
  intro K
  induction K with
  | zero => intro L hL; exact hL
  | succ K ih =>
    intro L hL
    rw [Function.iterate_succ_apply]
    refine ih (stepF d prec L) ?_
    intro s' hs'
    obtain ⟨s, hsL, hmem⟩ := stepF_mem hs'
    obtain ⟨hslen, hsinv⟩ := hL s hsL
    exact step_member_inv hprec hsym hdiag hslen hsinv (addpoints_mem hmem)

lemma initSol_length (N sp1 sp2 : ℕ) (c : ℝ) :
    (initSol N sp1 sp2 c).length = N := by
  rw [initSol, List.length_set, List.length_set, List.length_replicate]

lemma initSol_char {N sp1 sp2 : ℕ} {c : ℝ} (h1N : sp1 < N) (h2N : sp2 < N) :
    ∀ k pk, nthP (initSol N sp1 sp2 c) k = some pk →
      (k = sp2 ∧ pk = (c, 0)) ∨ (k = sp1 ∧ pk = ((0 : ℝ), (0 : ℝ))) := by
  intro k pk hk
  rw [initSol] at hk
  by_cases hk2 : k = sp2
  · subst hk2
    rw [nthP_set_self (by rw [List.length_set, List.length_replicate]; exact h2N)]
      at hk
    cases hk
    exact Or.inl ⟨rfl, rfl⟩
  · rw [nthP_set_ne (fun hh => hk2 hh.symm)] at hk
    by_cases hk1 : k = sp1
    · subst hk1
      rw [nthP_set_self (by rw [List.length_replicate]; exact h1N)] at hk
      cases hk
      exact Or.inr ⟨rfl, rfl⟩
    · rw [nthP_set_ne (fun hh => hk1 hh.symm), nthP_replicate] at hk
      cases hk

lemma initSol_inv {d : ℕ → ℕ → ℝ} {prec : ℝ} {N sp1 sp2 : ℕ}
    (hprec : 0 < prec)
    (hsym : ∀ a b, a < N → b < N → d a b = d b a)
    (hdiag : ∀ a, a < N → d a a = 0)
    (hc : 0 ≤ d sp1 sp2) (h1N : sp1 < N) (h2N : sp2 < N) :
    SolInv d prec (initSol N sp1 sp2 (d sp1 sp2)) := by
  intro a b pa qb hpa hqb hknown
  have hdist : dist ((0 : ℝ), (0 : ℝ)) (d sp1 sp2, 0) = d sp1 sp2 :=
    dist_eval hc (by ring)
  rcases initSol_char h1N h2N a pa hpa with ⟨rfl, rfl⟩ | ⟨rfl, rfl⟩ <;>
    rcases initSol_char h1N h2N b qb hqb with ⟨rfl, rfl⟩ | ⟨rfl, rfl⟩
  · rw [dist_self, hdiag _ h2N]
    simpa using hprec
  · rw [dist_comm, hdist, hsym _ _ h2N h1N]
    simpa using hprec
  · rw [hdist]
    simpa using hprec
  · rw [dist_self, hdiag _ h1N]
    simpa using hprec

lemma triangulatesgl_inv {d : ℕ → ℕ → ℝ} {prec : ℝ} {N sp1 sp2 : ℕ}
    (hprec : 0 < prec)
    (hsym : ∀ a b, a < N → b < N → d a b = d b a)
    (hdiag : ∀ a, a < N → d a a = 0)
    (hwf : ∀ i j, ¬ d i j < -(1 / 2) → 0 ≤ d i j)
    (h1N : sp1 < N) (h2N : sp2 < N) :
    ∀ s ∈ triangulatesgl d N sp1 sp2 prec, s.length = N ∧ SolInv d prec s := by
  intro s hs
  rw [triangulatesgl] at hs
  split_ifs at hs with hkn
  · simp at hs
  · refine stepF_iterate_inv hprec hsym hdiag (N - 2) _ ?_ s hs
    intro s0 hs0
    rw [List.mem_singleton] at hs0
    subst hs0
    exact ⟨initSol_length N sp1 sp2 (d sp1 sp2),
      initSol_inv hprec hsym hdiag (hwf sp1 sp2 hkn) h1N h2N⟩

lemma collectGo_mem {d : ℕ → ℕ → ℝ} {N : ℕ} {prec : ℝ} {ap : Bool} :
    ∀ (prs : List (ℕ × ℕ)) (acc : List Sol) (s : Sol),
      s ∈ collectGo d N prec ap prs acc →
      s ∈ acc ∨ ∃ nm ∈ prs, s ∈ triangulatesgl d N nm.1 nm.2 prec := by
  intro prs
  induction prs with
  | nil => intro acc s hs; exact Or.inl hs
  | cons nm rest ih =>
    intro acc s hs
    rw [collectGo] at hs
    split_ifs at hs with hcond
    · rcases List.mem_append.mp hs with h | h
      · exact Or.inl h
      · exact Or.inr ⟨nm, List.mem_cons_self _ _, h⟩
    · rcases ih _ s hs with h | h
      · rcases List.mem_append.mp h with h | h
        · exact Or.inl h
        · exact Or.inr ⟨nm, List.mem_cons_self _ _, h⟩
      · obtain ⟨nm', hnm', hmem⟩ := h
        exact Or.inr ⟨nm', List.mem_cons_of_mem _ hnm', hmem⟩

lemma rawResults_mem {d : ℕ → ℕ → ℝ} {N : ℕ} {prec : ℝ} {ap : Bool} {s : Sol}
    (h : s ∈ rawResults d N prec ap) :
    ∃ nm : ℕ × ℕ, nm.1 < nm.2 ∧ nm.2 < N ∧
      s ∈ triangulatesgl d N nm.1 nm.2 prec := by
  rw [rawResults] at h
  rcases collectGo_mem _ _ s h with h | ⟨nm, hnm, hmem⟩
  · simp at h
  · obtain ⟨h1, h2⟩ := (lexPairs_range_mem N nm).mp hnm
    exact ⟨nm, h1, h2, hmem⟩

lemma dedup_sublist (res : List Sol) (prec : ℝ) : (dedup res prec).Sublist res := by
  cases res with
  | nil => simp [dedup]
  | cons r rest =>
    have h := dedupGo_sublist prec rest [r]
    rwa [List.singleton_append] at h

/-! ## The canonicalizing map is an isometry (for claims C1 and C5) -/

lemma dist_sq {a b : Point} :
    dist a b ^ 2 = (b.1 - a.1) ^ 2 + (b.2 - a.2) ^ 2 := by
  rw [dist, Real.sq_sqrt (by positivity)]
  ring

lemma tranmat_unit {a b : Point} (hab : dist a b ≠ 0) :
    ((b.1 - a.1) / dist a b) ^ 2 + ((b.2 - a.2) / dist a b) ^ 2 = 1 := by
  rw [div_pow, div_pow, div_add_div_same, ← dist_sq,
    div_self (pow_ne_zero 2 hab)]

lemma tranmat_isometry {a b : Point} (hab : dist a b ≠ 0) (p q : Point) :
    dist (affinef (tranmat a b) p) (affinef (tranmat a b) q) = dist p q := by
  have huv := tranmat_unit hab
  rw [dist, dist]
  congr 1
  simp only [affinef, tranmat, mulVec, padd, pneg]
  linear_combination ((p.1 - q.1) ^ 2 + (p.2 - q.2) ^ 2) * huv

lemma affinef_tranmat_self (a b : Point) :
    affinef (tranmat a b) a = ((0 : ℝ), (0 : ℝ)) := by
  simp only [affinef, tranmat, mulVec, padd, pneg]
  refine Prod.ext ?_ ?_ <;> · show _ = _; ring

lemma affinef_tranmat_snd {a b : Point} (hab : dist a b ≠ 0) :
    affinef (tranmat a b) b = (dist a b, 0) := by
  have hD2 : dist a b ^ 2 = (b.1 - a.1) ^ 2 + (b.2 - a.2) ^ 2 := dist_sq
  simp only [affinef, tranmat, mulVec, padd, pneg]
  refine Prod.ext ?_ ?_
  · show (b.1 - a.1) / dist a b * b.1 + (b.2 - a.2) / dist a b * b.2 +
      -((b.1 - a.1) / dist a b * a.1 + (b.2 - a.2) / dist a b * a.2) = dist a b
    have h : (b.1 - a.1) / dist a b * b.1 + (b.2 - a.2) / dist a b * b.2 +
        -((b.1 - a.1) / dist a b * a.1 + (b.2 - a.2) / dist a b * a.2) =
        ((b.1 - a.1) ^ 2 + (b.2 - a.2) ^ 2) / dist a b := by ring
    rw [h, ← hD2, pow_two, mul_div_assoc, div_self hab, mul_one]
  · show -(b.2 - a.2) / dist a b * b.1 + (b.1 - a.1) / dist a b * b.2 +
      -(-(b.2 - a.2) / dist a b * a.1 + (b.1 - a.1) / dist a b * a.2) = 0
    ring

lemma rotate_mem {res : List Sol} {s' : Sol} (h : s' ∈ rotate res) :
    ∃ e ∈ res,
      s' = e.map (Option.map (affinef (tranmat (getP e 0) (getP e 1)))) := by
  rw [rotate] at h
  obtain ⟨e, he, rfl⟩ := List.mem_map.mp h
  exact ⟨e, he, rfl⟩

lemma rotate_inv {d : ℕ → ℕ → ℝ} {prec : ℝ} {e : Sol} (hinv : SolInv d prec e)
    (hsep : dist (getP e 0) (getP e 1) ≠ 0) :
    SolInv d prec
      (e.map (Option.map (affinef (tranmat (getP e 0) (getP e 1))))) := by
  intro a b pa qb hpa hqb hknown
  rw [nthP_map_opt] at hpa hqb
  rcases Option.map_eq_some'.mp hpa with ⟨p0, hp0, rfl⟩
  rcases Option.map_eq_some'.mp hqb with ⟨q0, hq0, rfl⟩
  rw [tranmat_isometry hsep]
  exact hinv a b p0 q0 hp0 hq0 hknown

/-! ## Claim C1: the validity invariant of returned solutions -/

/-- C1 (amended): every solution returned by `triangulate` realizes every
known distance between placed points within `prec`, *provided* `0 < prec`,
every non-sentinel matrix entry is non-negative, and in every raw
(pre-canonicalization) result the coordinates stored for points `0` and `1`
have nonzero separation (so that the canonicalizing map is a rigid motion;
a known zero distance on the starting edge violates the invariant, see the
counterexample). -/
theorem C1_validity_invariant (d : ℕ → ℕ → ℝ) (N : ℕ) (prec : ℝ) (ap : Bool)
    (sols : List Sol)
    (hprec : 0 < prec)
    (hwf : ∀ i j, ¬ d i j < -(1 / 2) → 0 ≤ d i j)
    (hok : triangulate d N prec ap = Except.ok sols)
    (hsep : ∀ e ∈ rawResults d N prec ap, dist (getP e 0) (getP e 1) ≠ 0) :
    ∀ sol ∈ sols, ∀ i j p q, nthP sol i = some p → nthP sol j = some q →
      d i j > -(1 / 2) → |dist p q - d i j| < prec := by
  by_cases hdv : distvalid d N (prec / 3)
  case neg =>
    rw [triangulate, if_pos hdv] at hok
    exact absurd hok (by simp)
  case pos =>
    have hsym : ∀ a b, a < N → b < N → d a b = d b a :=
      fun a b ha hb => hdv.1 a ha b hb
    have hdiag : ∀ a, a < N → d a a = 0 := fun a ha => hdv.2.1 a ha
    rw [triangulate, if_neg (not_not_intro hdv)] at hok
    by_cases hraw : rawResults d N prec ap = []
    · rw [if_pos hraw] at hok
      injection hok with hok
      intro sol hsol
      rw [← hok] at hsol
      simp at hsol
    · rw [if_neg hraw] at hok
      injection hok with hok
      intro sol hsol
      rw [← hok] at hsol
      have hsol2 : sol ∈ rotate (rawResults d N prec ap) :=
        (dedup_sublist _ prec).subset hsol
      obtain ⟨e, he, rfl⟩ := rotate_mem hsol2
      obtain ⟨nm, h1, h2, hmem⟩ := rawResults_mem he
      obtain ⟨-, heinv⟩ := triangulatesgl_inv hprec hsym hdiag hwf
        (h1.trans h2) h2 e hmem
      exact rotate_inv heinv (hsep e he)

/-! ## Claim C5: the canonical frame of returned solutions -/

lemma dist_nonneg (v w : Point) : 0 ≤ dist v w := Real.sqrt_nonneg _

/-- C5: in every solution returned by `triangulate`, point `0` is at the
origin and point `1` lies on the non-negative x-axis, assuming exact real
arithmetic and that points `0` and `1` are placed with nonzero separation in
the raw (pre-canonicalization) results. -/
theorem C5_canonical_frame (d : ℕ → ℕ → ℝ) (N : ℕ) (prec : ℝ) (ap : Bool)
    (sols : List Sol)
    (hok : triangulate d N prec ap = Except.ok sols)
    (hplaced : ∀ e ∈ rawResults d N prec ap, ∃ p0 p1 : Point,
      nthP e 0 = some p0 ∧ nthP e 1 = some p1 ∧ dist p0 p1 ≠ 0) :
    ∀ sol ∈ sols, nthP sol 0 = some ((0 : ℝ), (0 : ℝ)) ∧
      ∃ x : ℝ, 0 ≤ x ∧ nthP sol 1 = some (x, 0) := by
  by_cases hdv : distvalid d N (prec / 3)
  case neg =>
    rw [triangulate, if_pos hdv] at hok
    exact absurd hok (by simp)
  case pos =>
  rw [triangulate, if_neg (not_not_intro hdv)] at hok
  by_cases hraw : rawResults d N prec ap = []
  · rw [if_pos hraw] at hok
    injection hok with hok
    intro sol hsol
    rw [← hok] at hsol
    simp at hsol
  · rw [if_neg hraw] at hok
    injection hok with hok
    intro sol hsol
    rw [← hok] at hsol
    have hsol2 : sol ∈ rotate (rawResults d N prec ap) :=
      (dedup_sublist _ prec).subset hsol
    obtain ⟨e, he, rfl⟩ := rotate_mem hsol2
    obtain ⟨p0, p1, hp0, hp1, hsep⟩ := hplaced e he
    have hg0 : getP e 0 = p0 := by rw [getP, hp0]; rfl
    have hg1 : getP e 1 = p1 := by rw [getP, hp1]; rfl
    constructor
    · rw [nthP_map_opt, hp0, Option.map_some', hg0, hg1, affinef_tranmat_self]
    · refine ⟨dist p0 p1, dist_nonneg p0 p1, ?_⟩
      rw [nthP_map_opt, hp1, Option.map_some', hg0, hg1, affinef_tranmat_snd hsep]

/-! ## Evaluation of the full pipeline on the 2-point matrix `dW` -/

lemma dW_wf : ∀ i j, ¬ dW i j < -(1 / 2) → 0 ≤ dW i j := by
  intro i j h
  simp only [dW] at h ⊢
  split_ifs at h ⊢ with h1 h2
  · norm_num
  · norm_num
  · exfalso
    exact h (by norm_num)

lemma distvalid_dW : distvalid dW 2 (1 / 3) := by
  refine ⟨?_, ?_, ?_⟩
  · intro i hi j hj
    interval_cases i <;> interval_cases j <;> norm_num [dW]
  · intro i hi
    interval_cases i <;> norm_num [dW]
  · intro i j k hij hjk hkN
    exfalso
    omega

lemma raw_dW : rawResults dW 2 1 false =
    [[some ((0 : ℝ), (0 : ℝ)), some ((3 : ℝ), (0 : ℝ))]] := by
  rw [rawResults, show lexPairs (List.range 2) = [(0, 1)] from rfl]
  have hsgl : triangulatesgl dW 2 0 1 1 =
      [[some ((0 : ℝ), (0 : ℝ)), some ((3 : ℝ), (0 : ℝ))]] := by
    rw [triangulatesgl, if_neg (by norm_num [dW]),
      show (2 : ℕ) - 2 = 0 from rfl, Function.iterate_zero_apply,
      show dW 0 1 = 3 from by norm_num [dW]]
    rfl
  rw [collectGo, show triangulatesgl dW 2 (0, 1).1 (0, 1).2 1 =
    [[some ((0 : ℝ), (0 : ℝ)), some ((3 : ℝ), (0 : ℝ))]] from hsgl,
    if_pos ⟨by simp, rfl⟩]
  simp

lemma dist_dW : dist ((0 : ℝ), (0 : ℝ)) ((3 : ℝ), (0 : ℝ)) = 3 :=
  dist_eval (by norm_num) (by norm_num)

lemma triangulate_dW : triangulate dW 2 1 false =
    Except.ok [[some ((0 : ℝ), (0 : ℝ)), some ((3 : ℝ), (0 : ℝ))]] := by
  rw [triangulate, if_neg (not_not_intro distvalid_dW),
    if_neg (by rw [raw_dW]; simp), raw_dW]
  have hrot : rotate [[some ((0 : ℝ), (0 : ℝ)), some ((3 : ℝ), (0 : ℝ))]] =
      [[some ((0 : ℝ), (0 : ℝ)), some ((3 : ℝ), (0 : ℝ))]] := by
    rw [rotate, List.map_cons, List.map_nil,
      show getP [some ((0 : ℝ), (0 : ℝ)), some ((3 : ℝ), (0 : ℝ))] 0 =
        ((0 : ℝ), (0 : ℝ)) from rfl,
      show getP [some ((0 : ℝ), (0 : ℝ)), some ((3 : ℝ), (0 : ℝ))] 1 =
        ((3 : ℝ), (0 : ℝ)) from rfl,
      tranmat_canon (by norm_num : (0 : ℝ) < 3),
      List.map_cons, List.map_cons, List.map_nil, Option.map_some',
      Option.map_some', affinef_id, affinef_id]
  rw [hrot]
  rfl

/-- C1 witness: the amended validity invariant applied to the 2-point run on
`dW`, checked at the placed pair `(0, 1)`. -/
theorem C1_validity_invariant_witness :
    |dist ((0 : ℝ), (0 : ℝ)) ((3 : ℝ), (0 : ℝ)) - dW 0 1| < 1 := by
  refine C1_validity_invariant dW 2 1 false
    [[some ((0 : ℝ), (0 : ℝ)), some ((3 : ℝ), (0 : ℝ))]] (by norm_num) dW_wf
    triangulate_dW ?_ [some ((0 : ℝ), (0 : ℝ)), some ((3 : ℝ), (0 : ℝ))]
    (List.mem_singleton_self _) 0 1 ((0 : ℝ), (0 : ℝ)) ((3 : ℝ), (0 : ℝ)) rfl rfl
    (by norm_num [dW])
  intro e he
  rw [raw_dW, List.mem_singleton] at he
  rw [he, show getP [some ((0 : ℝ), (0 : ℝ)), some ((3 : ℝ), (0 : ℝ))] 0 =
      ((0 : ℝ), (0 : ℝ)) from rfl,
    show getP [some ((0 : ℝ), (0 : ℝ)), some ((3 : ℝ), (0 : ℝ))] 1 =
      ((3 : ℝ), (0 : ℝ)) from rfl, dist_dW]
  norm_num

/-- C5 witness: the canonical-frame property applied to the 2-point run on
`dW`. -/
theorem C5_canonical_frame_witness :
    nthP [some ((0 : ℝ), (0 : ℝ)), some ((3 : ℝ), (0 : ℝ))] 0 =
      some ((0 : ℝ), (0 : ℝ)) ∧
    ∃ x : ℝ, 0 ≤ x ∧
      nthP [some ((0 : ℝ), (0 : ℝ)), some ((3 : ℝ), (0 : ℝ))] 1 = some (x, 0) := by
  refine C5_canonical_frame dW 2 1 false
    [[some ((0 : ℝ), (0 : ℝ)), some ((3 : ℝ), (0 : ℝ))]] triangulate_dW ?_
    [some ((0 : ℝ), (0 : ℝ)), some ((3 : ℝ), (0 : ℝ))] (List.mem_singleton_self _)
  intro e he
  rw [raw_dW, List.mem_singleton] at he
  subst he
  exact ⟨((0 : ℝ), (0 : ℝ)), ((3 : ℝ), (0 : ℝ)), rfl, rfl,
    by rw [dist_dW]; norm_num⟩

/-! ## Claim C9: the 3-4-5 right-triangle scenario, evaluated in full -/

lemma candPos_eval {sol : Sol} {n m : ℕ} {c : ℝ} (i : ℕ) (d : ℕ → ℕ → ℝ)
    (hg0 : getP sol n = ((0 : ℝ), (0 : ℝ))) (hg1 : getP sol m = (c, 0))
    (hc : 0 < c) (y : ℝ) :
    candPos sol i n m d y =
      (xvalue (d i n) (d i m) (anchorDist sol n m), y) := by
  rw [candPos, hg0, hg1, tranmat_canon hc, invtranmat_id, affinef_id]

lemma map_affinef_id (e : Sol) :
    e.map (Option.map (affinef ((((1 : ℝ), (0 : ℝ)), ((0 : ℝ), (1 : ℝ))),
      ((0 : ℝ), (0 : ℝ))))) = e := by
  induction e with
  | nil => rfl
  | cons a l ih =>
    rw [List.map_cons, ih]
    cases a with
    | none => rfl
    | some p => rw [Option.map_some', affinef_id]

lemma pc345 : pntcoord [some ((0 : ℝ), (0 : ℝ)), some ((3 : ℝ), (0 : ℝ)), none]
    2 0 1 d345 (1 / 1000000) = ([((3 : ℝ), (4 : ℝ)), ((3 : ℝ), (-4 : ℝ))], 0) := by
  have had : anchorDist [some ((0 : ℝ), (0 : ℝ)), some ((3 : ℝ), (0 : ℝ)), none]
      0 1 = 3 := dist_eval (by norm_num) (by norm_num)
  have hd0 : d345 2 0 = 5 := by norm_num [d345]
  have hd1 : d345 2 1 = 4 := by norm_num [d345]
  have hys : candYs [some ((0 : ℝ), (0 : ℝ)), some ((3 : ℝ), (0 : ℝ)), none]
      2 0 1 d345 = (4, -4) := by
    rw [candYs, had, hd0, hd1, yvalue, if_neg (by norm_num)]
    have h576 : 2 * (((4 : ℝ) * 5) ^ 2 + (4 * 3) ^ 2 + (5 * 3) ^ 2) -
        ((4 : ℝ) ^ 4 + 5 ^ 4 + 3 ^ 4) = 576 := by norm_num
    rw [h576, show max (576 : ℝ) 0 = 576 from by norm_num,
      sqrt_eval (show (0 : ℝ) ≤ 24 from by norm_num)
        (show (24 : ℝ) ^ 2 = 576 from by norm_num)]
    norm_num
  have hy1 : (candYs [some ((0 : ℝ), (0 : ℝ)), some ((3 : ℝ), (0 : ℝ)), none]
      2 0 1 d345).1 = 4 := by rw [hys]
  have hy2 : (candYs [some ((0 : ℝ), (0 : ℝ)), some ((3 : ℝ), (0 : ℝ)), none]
      2 0 1 d345).2 = -4 := by rw [hys]
  have hpos : ∀ y : ℝ,
      candPos [some ((0 : ℝ), (0 : ℝ)), some ((3 : ℝ), (0 : ℝ)), none]
        2 0 1 d345 y = (3, y) := by
    intro y
    rw [candPos_eval 2 d345
      (show getP [some ((0 : ℝ), (0 : ℝ)), some ((3 : ℝ), (0 : ℝ)), none] 0 =
        ((0 : ℝ), (0 : ℝ)) from rfl)
      (show getP [some ((0 : ℝ), (0 : ℝ)), some ((3 : ℝ), (0 : ℝ)), none] 1 =
        ((3 : ℝ), (0 : ℝ)) from rfl)
      (by norm_num : (0 : ℝ) < 3), had, hd0, hd1, xvalue]
    norm_num
  have hv1 : validAt [some ((0 : ℝ), (0 : ℝ)), some ((3 : ℝ), (0 : ℝ)), none]
      2 d345 (1 / 1000000) ((3 : ℝ), (4 : ℝ)) := by
    intro k hk q hq hdk
    have hk3 : k < 3 := hk
    interval_cases k
    · rw [show nthP [some ((0 : ℝ), (0 : ℝ)), some ((3 : ℝ), (0 : ℝ)), none] 0 =
        some ((0 : ℝ), (0 : ℝ)) from rfl] at hq
      cases hq
      rw [hd0, dist_eval (by norm_num : (0 : ℝ) ≤ 5) (by norm_num)]
      norm_num
    · rw [show nthP [some ((0 : ℝ), (0 : ℝ)), some ((3 : ℝ), (0 : ℝ)), none] 1 =
        some ((3 : ℝ), (0 : ℝ)) from rfl] at hq
      cases hq
      rw [hd1, dist_eval (by norm_num : (0 : ℝ) ≤ 4) (by norm_num)]
      norm_num
    · rw [show nthP [some ((0 : ℝ), (0 : ℝ)), some ((3 : ℝ), (0 : ℝ)), none] 2 =
        none from rfl] at hq
      cases hq
  have hv2 : validAt [some ((0 : ℝ), (0 : ℝ)), some ((3 : ℝ), (0 : ℝ)), none]
      2 d345 (1 / 1000000) ((3 : ℝ), (-4 : ℝ)) := by
    intro k hk q hq hdk
    have hk3 : k < 3 := hk
    interval_cases k
    · rw [show nthP [some ((0 : ℝ), (0 : ℝ)), some ((3 : ℝ), (0 : ℝ)), none] 0 =
        some ((0 : ℝ), (0 : ℝ)) from rfl] at hq
      cases hq
      rw [hd0, dist_eval (by norm_num : (0 : ℝ) ≤ 5) (by norm_num)]
      norm_num
    · rw [show nthP [some ((0 : ℝ), (0 : ℝ)), some ((3 : ℝ), (0 : ℝ)), none] 1 =
        some ((3 : ℝ), (0 : ℝ)) from rfl] at hq
      cases hq
      rw [hd1, dist_eval (by norm_num : (0 : ℝ) ≤ 4) (by norm_num)]
      norm_num
    · rw [show nthP [some ((0 : ℝ), (0 : ℝ)), some ((3 : ℝ), (0 : ℝ)), none] 2 =
        none from rfl] at hq
      cases hq
  have habs : |(4 : ℝ) - (-4)| = 8 := by
    rw [show (4 : ℝ) - (-4) = 8 from by norm_num]
    exact abs_of_pos (by norm_num)
  rw [pntcoord, if_neg (by norm_num [d345]), if_neg (by rw [had]; norm_num [d345]),
    pntcoordMain, hy1, hy2, hpos, hpos, if_pos (Or.inl hv1), if_pos hv1,
    if_pos ⟨hv2, by rw [habs]; norm_num⟩]
  rfl

lemma ap345 : addpoints [some ((0 : ℝ), (0 : ℝ)), some ((3 : ℝ), (0 : ℝ)), none]
    d345 (1 / 1000000) = ([s345a, s345b], 0) := by
  have hap : addpoint [some ((0 : ℝ), (0 : ℝ)), some ((3 : ℝ), (0 : ℝ)), none]
      2 d345 (1 / 1000000) = ([s345a, s345b], 0) := by
    rw [addpoint, show nthP [some ((0 : ℝ), (0 : ℝ)), some ((3 : ℝ), (0 : ℝ)),
      none] 2 = none from rfl, if_neg (by simp),
      show lexPairs (placedIdx [some ((0 : ℝ), (0 : ℝ)),
        some ((3 : ℝ), (0 : ℝ)), none]) = [(0, 1)] from rfl,
      addpointGo,
      show pntcoord [some ((0 : ℝ), (0 : ℝ)), some ((3 : ℝ), (0 : ℝ)), none]
        2 ((0 : ℕ), (1 : ℕ)).1 ((0 : ℕ), (1 : ℕ)).2 d345 (1 / 1000000) =
        ([((3 : ℝ), (4 : ℝ)), ((3 : ℝ), (-4 : ℝ))], 0) from pc345,
      if_pos rfl]
    rfl
  rw [addpoints, show unplacedIdx [some ((0 : ℝ), (0 : ℝ)),
    some ((3 : ℝ), (0 : ℝ)), none] = [2] from rfl, addpointsGo, hap, if_pos rfl,
    addpointsGo]
  simp

lemma sgl345 : triangulatesgl d345 3 0 1 (1 / 1000000) = [s345a, s345b] := by
  rw [triangulatesgl, if_neg (by norm_num [d345]),
    show (3 : ℕ) - 2 = 1 from rfl, Function.iterate_one,
    show initSol 3 0 1 (d345 0 1) =
      [some ((0 : ℝ), (0 : ℝ)), some ((3 : ℝ), (0 : ℝ)), none] from by
        rw [show d345 0 1 = 3 from by norm_num [d345]]; rfl,
    stepF, List.flatMap_cons, List.flatMap_nil, ap345, if_pos rfl]
  simp

lemma raw345 : rawResults d345 3 (1 / 1000000) false = [s345a, s345b] := by
  rw [rawResults, show lexPairs (List.range 3) = [(0, 1), (0, 2), (1, 2)] from rfl,
    collectGo,
    show triangulatesgl d345 3 ((0 : ℕ), (1 : ℕ)).1 ((0 : ℕ), (1 : ℕ)).2
      (1 / 1000000) = [s345a, s345b] from sgl345,
    if_pos ⟨by simp, rfl⟩]
  simp

lemma distvalid345 : distvalid d345 3 (1 / 1000000 / 3) := by
  refine ⟨?_, ?_, ?_⟩
  · intro i hi j hj
    interval_cases i <;> interval_cases j <;> norm_num [d345]
  · intro i hi
    interval_cases i <;> norm_num [d345]
  · intro i j k hij hjk hkN h1 h2 h3
    obtain ⟨rfl, rfl, rfl⟩ : i = 0 ∧ j = 1 ∧ k = 2 := by omega
    rw [show |(1 / 1000000 : ℝ) / 3| = 1 / 1000000 / 3 from
      abs_of_pos (by norm_num)]
    norm_num [d345]

lemma rot345 : rotate [s345a, s345b] = [s345a, s345b] := by
  rw [rotate, List.map_cons, List.map_cons, List.map_nil,
    show getP s345a 0 = ((0 : ℝ), (0 : ℝ)) from rfl,
    show getP s345a 1 = ((3 : ℝ), (0 : ℝ)) from rfl,
    show getP s345b 0 = ((0 : ℝ), (0 : ℝ)) from rfl,
    show getP s345b 1 = ((3 : ℝ), (0 : ℝ)) from rfl,
    tranmat_canon (by norm_num : (0 : ℝ) < 3), map_affinef_id, map_affinef_id]

lemma dedup345 : dedup [s345a, s345b] (1 / 1000000) = [s345a, s345b] := by
  show dedupGo (1 / 1000000) [s345a] [s345b] = [s345a, s345b]
  have hns : ∀ j ∈ [s345a], ¬ solequal s345b j (1 / 1000000) := by
    intro j hj
    rw [List.mem_singleton] at hj
    subst hj
    intro hcon
    simp only [s345a, s345b, solequal] at hcon
    have h3 := hcon.2.2.1
    rw [dist_eval (by norm_num : (0 : ℝ) ≤ 8) (by norm_num)] at h3
    norm_num at h3
  rw [dedupGo, if_pos hns, dedupGo]
  rfl

lemma tri345 : triangulate d345 3 (1 / 1000000) false =
    Except.ok [s345a, s345b] := by
  rw [triangulate, if_neg (not_not_intro distvalid345),
    if_neg (by rw [raw345]; simp), raw345, rot345, dedup345]

/-- C9 (amended): for the 3-4-5 matrix (`d01 = 3`, `d02 = 5`, `d12 = 4`) and
`prec = 1e-6`, `triangulate` returns exactly *two* canonical solutions:
point 0 at `(0,0)`, point 1 at `(3,0)`, and point 2 at `(3,4)` respectively
at its reflection `(3,-4)` — the mirror ambiguity is not collapsed, and the
true third point for these distances is `(3, ±4)`, not `(9/5, 12/5)`. -/
theorem C9_two_solutions : triangulate d345 3 (1 / 1000000) false =
    Except.ok [s345a, s345b] :=
  tri345

/-- C9 counterexample: the run on the 3-4-5 matrix returns a list of two
distinct canonical solutions, refuting "exactly one canonical solution with
point2 = (9/5, 12/5) or its reflection". -/
theorem C9_cex : triangulate d345 3 (1 / 1000000) false =
    Except.ok [s345a, s345b] ∧ s345a ≠ s345b := by
  refine ⟨tri345, ?_⟩
  intro h
  rw [s345a, s345b] at h
  have h4 := List.head_eq_of_cons_eq (List.tail_eq_of_cons_eq
    (List.tail_eq_of_cons_eq h))
  rw [Option.some_inj, Prod.ext_iff] at h4
  norm_num at h4

/-! ## Claim C1, counterexample: the degenerate matrix `dC1` evaluated -/

lemma tranmat_zero : tranmat ((0 : ℝ), (0 : ℝ)) ((0 : ℝ), (0 : ℝ)) =
    ((((0 : ℝ), (0 : ℝ)), ((0 : ℝ), (0 : ℝ))), ((0 : ℝ), (0 : ℝ))) := by
  simp only [tranmat, mulVec, pneg]
  norm_num

lemma invtranmat_zero :
    invtranmat ((((0 : ℝ), (0 : ℝ)), ((0 : ℝ), (0 : ℝ))), ((0 : ℝ), (0 : ℝ))) =
    ((((0 : ℝ), (0 : ℝ)), ((0 : ℝ), (0 : ℝ))), ((0 : ℝ), (0 : ℝ))) := by
  simp only [invtranmat, mulVec, pneg]
  norm_num

lemma affinef_zero (x : Point) :
    affinef ((((0 : ℝ), (0 : ℝ)), ((0 : ℝ), (0 : ℝ))), ((0 : ℝ), (0 : ℝ))) x =
    ((0 : ℝ), (0 : ℝ)) := by
  simp only [affinef, mulVec, padd]
  norm_num

lemma pcC1a : pntcoord [some ((0 : ℝ), (0 : ℝ)), some ((0 : ℝ), (0 : ℝ)), none]
    2 0 1 dC1 1 = ([], 2) := by
  have had : anchorDist [some ((0 : ℝ), (0 : ℝ)), some ((0 : ℝ), (0 : ℝ)), none]
      0 1 = 0 := by
    rw [anchorDist,
      show getP [some ((0 : ℝ), (0 : ℝ)), some ((0 : ℝ), (0 : ℝ)), none] 0 =
        ((0 : ℝ), (0 : ℝ)) from rfl,
      show getP [some ((0 : ℝ), (0 : ℝ)), some ((0 : ℝ), (0 : ℝ)), none] 1 =
        ((0 : ℝ), (0 : ℝ)) from rfl, dist_self]
  have hposz : ∀ y : ℝ,
      candPos [some ((0 : ℝ), (0 : ℝ)), some ((0 : ℝ), (0 : ℝ)), none]
        2 0 1 dC1 y = ((0 : ℝ), (0 : ℝ)) := by
    intro y
    rw [candPos,
      show getP [some ((0 : ℝ), (0 : ℝ)), some ((0 : ℝ), (0 : ℝ)), none] 0 =
        ((0 : ℝ), (0 : ℝ)) from rfl,
      show getP [some ((0 : ℝ), (0 : ℝ)), some ((0 : ℝ), (0 : ℝ)), none] 1 =
        ((0 : ℝ), (0 : ℝ)) from rfl, tranmat_zero, invtranmat_zero, affinef_zero]
  have hnv : ¬ validAt [some ((0 : ℝ), (0 : ℝ)), some ((0 : ℝ), (0 : ℝ)), none]
      2 dC1 1 ((0 : ℝ), (0 : ℝ)) := by
    intro h
    have := h 0 (by norm_num) ((0 : ℝ), (0 : ℝ)) rfl (by norm_num [dC1])
    rw [dist_self, show dC1 2 0 = 5 from by norm_num [dC1]] at this
    norm_num at this
  rw [pntcoord, if_neg (by norm_num [dC1]), if_neg (by rw [had]; norm_num [dC1]),
    pntcoordMain, hposz, hposz, if_neg (fun h => h.elim hnv hnv)]

lemma apC1a : addpoints [some ((0 : ℝ), (0 : ℝ)), some ((0 : ℝ), (0 : ℝ)), none]
    dC1 1 = ([], 2) := by
  have hap : addpoint [some ((0 : ℝ), (0 : ℝ)), some ((0 : ℝ), (0 : ℝ)), none]
      2 dC1 1 = ([], 2) := by
    rw [addpoint, show nthP [some ((0 : ℝ), (0 : ℝ)), some ((0 : ℝ), (0 : ℝ)),
        none] 2 = none from rfl, if_neg (by simp),
      show lexPairs (placedIdx [some ((0 : ℝ), (0 : ℝ)),
        some ((0 : ℝ), (0 : ℝ)), none]) = [(0, 1)] from rfl,
      addpointGo,
      show pntcoord [some ((0 : ℝ), (0 : ℝ)), some ((0 : ℝ), (0 : ℝ)), none]
        2 ((0 : ℕ), (1 : ℕ)).1 ((0 : ℕ), (1 : ℕ)).2 dC1 1 = ([], 2) from pcC1a,
      if_neg (by simp), if_pos rfl]
  rw [addpoints, show unplacedIdx [some ((0 : ℝ), (0 : ℝ)),
    some ((0 : ℝ), (0 : ℝ)), none] = [2] from rfl, addpointsGo, hap,
    if_neg (by simp), if_pos rfl]

lemma sglC1a : triangulatesgl dC1 3 0 1 1 = [] := by
  rw [triangulatesgl, if_neg (by norm_num [dC1]),
    show (3 : ℕ) - 2 = 1 from rfl, Function.iterate_one,
    show initSol 3 0 1 (dC1 0 1) =
      [some ((0 : ℝ), (0 : ℝ)), some ((0 : ℝ), (0 : ℝ)), none] from by
        rw [show dC1 0 1 = 0 from by norm_num [dC1]]; rfl,
    stepF, List.flatMap_cons, List.flatMap_nil, apC1a, if_neg (by simp)]
  rfl

lemma pcC1b : pntcoord [some ((0 : ℝ), (0 : ℝ)), none, some ((5 : ℝ), (0 : ℝ))]
    1 0 2 dC1 1 = ([((0 : ℝ), (0 : ℝ))], 0) := by
  have had : anchorDist [some ((0 : ℝ), (0 : ℝ)), none, some ((5 : ℝ), (0 : ℝ))]
      0 2 = 5 := dist_eval (by norm_num) (by norm_num)
  have hd0 : dC1 1 0 = 0 := by norm_num [dC1]
  have hd2 : dC1 1 2 = 5 := by norm_num [dC1]
  have hys : candYs [some ((0 : ℝ), (0 : ℝ)), none, some ((5 : ℝ), (0 : ℝ))]
      1 0 2 dC1 = (0, -0) := by
    rw [candYs, had, hd0, hd2, yvalue, if_pos (Or.inl (by norm_num))]
  have hy1 : (candYs [some ((0 : ℝ), (0 : ℝ)), none, some ((5 : ℝ), (0 : ℝ))]
      1 0 2 dC1).1 = 0 := by rw [hys]
  have hy2 : (candYs [some ((0 : ℝ), (0 : ℝ)), none, some ((5 : ℝ), (0 : ℝ))]
      1 0 2 dC1).2 = -0 := by rw [hys]
  have hposz : ∀ y : ℝ,
      candPos [some ((0 : ℝ), (0 : ℝ)), none, some ((5 : ℝ), (0 : ℝ))]
        1 0 2 dC1 y = ((0 : ℝ), y) := by
    intro y
    rw [candPos_eval 1 dC1
      (show getP [some ((0 : ℝ), (0 : ℝ)), none, some ((5 : ℝ), (0 : ℝ))] 0 =
        ((0 : ℝ), (0 : ℝ)) from rfl)
      (show getP [some ((0 : ℝ), (0 : ℝ)), none, some ((5 : ℝ), (0 : ℝ))] 2 =
        ((5 : ℝ), (0 : ℝ)) from rfl)
      (by norm_num : (0 : ℝ) < 5), had, hd0, hd2, xvalue]
    norm_num
  have hv : validAt [some ((0 : ℝ), (0 : ℝ)), none, some ((5 : ℝ), (0 : ℝ))]
      1 dC1 1 ((0 : ℝ), (0 : ℝ)) := by
    intro k hk q hq hdk
    have hk3 : k < 3 := hk
    interval_cases k
    · rw [show nthP [some ((0 : ℝ), (0 : ℝ)), none, some ((5 : ℝ), (0 : ℝ))] 0 =
        some ((0 : ℝ), (0 : ℝ)) from rfl] at hq
      cases hq
      rw [hd0, dist_self]
      norm_num
    · rw [show nthP [some ((0 : ℝ), (0 : ℝ)), none, some ((5 : ℝ), (0 : ℝ))] 1 =
        none from rfl] at hq
      cases hq
    · rw [show nthP [some ((0 : ℝ), (0 : ℝ)), none, some ((5 : ℝ), (0 : ℝ))] 2 =
        some ((5 : ℝ), (0 : ℝ)) from rfl] at hq
      cases hq
      rw [hd2, dist_eval (by norm_num : (0 : ℝ) ≤ 5) (by norm_num)]
      norm_num
  have hv2 : validAt [some ((0 : ℝ), (0 : ℝ)), none, some ((5 : ℝ), (0 : ℝ))]
      1 dC1 1 ((0 : ℝ), (-0 : ℝ)) := by
    rw [show ((0 : ℝ), (-0 : ℝ)) = ((0 : ℝ), (0 : ℝ)) from by norm_num]
    exact hv
  rw [pntcoord, if_neg (by norm_num [dC1]), if_neg (by rw [had]; norm_num [dC1]),
    pntcoordMain, hy1, hy2, hposz, hposz, if_pos (Or.inl hv), if_pos hv,
    if_neg (fun h => h.2 (by norm_num))]
  rfl

lemma apC1b : addpoints [some ((0 : ℝ), (0 : ℝ)), none, some ((5 : ℝ), (0 : ℝ))]
    dC1 1 = ([sC1pre], 0) := by
  have hap : addpoint [some ((0 : ℝ), (0 : ℝ)), none, some ((5 : ℝ), (0 : ℝ))]
      1 dC1 1 = ([sC1pre], 0) := by
    rw [addpoint, show nthP [some ((0 : ℝ), (0 : ℝ)), none,
        some ((5 : ℝ), (0 : ℝ))] 1 = none from rfl, if_neg (by simp),
      show lexPairs (placedIdx [some ((0 : ℝ), (0 : ℝ)), none,
        some ((5 : ℝ), (0 : ℝ))]) = [(0, 2)] from rfl,
      addpointGo,
      show pntcoord [some ((0 : ℝ), (0 : ℝ)), none, some ((5 : ℝ), (0 : ℝ))]
        1 ((0 : ℕ), (2 : ℕ)).1 ((0 : ℕ), (2 : ℕ)).2 dC1 1 =
        ([((0 : ℝ), (0 : ℝ))], 0) from pcC1b,
      if_pos rfl]
    rfl
  rw [addpoints, show unplacedIdx [some ((0 : ℝ), (0 : ℝ)), none,
    some ((5 : ℝ), (0 : ℝ))] = [1] from rfl, addpointsGo, hap, if_pos rfl,
    addpointsGo]
  simp

lemma sglC1b : triangulatesgl dC1 3 0 2 1 = [sC1pre] := by
  rw [triangulatesgl, if_neg (by norm_num [dC1]),
    show (3 : ℕ) - 2 = 1 from rfl, Function.iterate_one,
    show initSol 3 0 2 (dC1 0 2) =
      [some ((0 : ℝ), (0 : ℝ)), none, some ((5 : ℝ), (0 : ℝ))] from by
        rw [show dC1 0 2 = 5 from by norm_num [dC1]]; rfl,
    stepF, List.flatMap_cons, List.flatMap_nil, apC1b, if_pos rfl]
  simp

lemma rawC1 : rawResults dC1 3 1 false = [sC1pre] := by
  rw [rawResults, show lexPairs (List.range 3) = [(0, 1), (0, 2), (1, 2)] from rfl,
    collectGo,
    show triangulatesgl dC1 3 ((0 : ℕ), (1 : ℕ)).1 ((0 : ℕ), (1 : ℕ)).2 1 = []
      from sglC1a, if_neg (by simp),
    show ([] : List Sol) ++ [] = [] from rfl, collectGo,
    show triangulatesgl dC1 3 ((0 : ℕ), (2 : ℕ)).1 ((0 : ℕ), (2 : ℕ)).2 1 =
      [sC1pre] from sglC1b, if_pos ⟨by simp, rfl⟩]
  simp

lemma distvalidC1 : distvalid dC1 3 (1 / 3) := by
  refine ⟨?_, ?_, ?_⟩
  · intro i hi j hj
    interval_cases i <;> interval_cases j <;> norm_num [dC1]
  · intro i hi
    interval_cases i <;> norm_num [dC1]
  · intro i j k hij hjk hkN h1 h2 h3
    obtain ⟨rfl, rfl, rfl⟩ : i = 0 ∧ j = 1 ∧ k = 2 := by omega
    rw [show |(1 / 3 : ℝ)| = 1 / 3 from abs_of_pos (by norm_num)]
    norm_num [dC1]

lemma rotC1 : rotate [sC1pre] = [sC1deg] := by
  rw [rotate, List.map_cons, List.map_nil,
    show getP sC1pre 0 = ((0 : ℝ), (0 : ℝ)) from rfl,
    show getP sC1pre 1 = ((0 : ℝ), (0 : ℝ)) from rfl, tranmat_zero,
    show sC1pre.map (Option.map (affinef ((((0 : ℝ), (0 : ℝ)),
        ((0 : ℝ), (0 : ℝ))), ((0 : ℝ), (0 : ℝ))))) = sC1deg from by
      rw [sC1pre, List.map_cons, List.map_cons, List.map_cons, List.map_nil,
        Option.map_some', Option.map_some', affinef_zero, affinef_zero]
      rfl]

lemma triC1 : triangulate dC1 3 1 false = Except.ok [sC1deg] := by
  rw [triangulate, if_neg (not_not_intro distvalidC1),
    if_neg (by rw [rawC1]; simp), rawC1, rotC1]
  rfl

/-- C1 counterexample: on the matrix with a known zero distance `d01 = 0`
(and `d02 = d12 = 5`) with `prec = 1`, `triangulate` returns a solution in
which points `0` and `2` are both placed, `d02 = 5` is known, yet the
realized distance is `0`: the validity invariant `|dist - d| < prec` fails
on the returned solution (in the source this is the NaN produced by the
zero-division in `rotate`). -/
theorem C1_cex :
    triangulate dC1 3 1 false = Except.ok [sC1deg] ∧
    nthP sC1deg 0 = some ((0 : ℝ), (0 : ℝ)) ∧
    nthP sC1deg 2 = some ((0 : ℝ), (0 : ℝ)) ∧
    dC1 0 2 > -(1 / 2) ∧
    ¬ |dist ((0 : ℝ), (0 : ℝ)) ((0 : ℝ), (0 : ℝ)) - dC1 0 2| < 1 :=
  ⟨triC1, rfl, rfl, by norm_num [dC1], by rw [dist_self]; norm_num [dC1]⟩

end Welltestpy

end
